import Mathlib

set_option maxHeartbeats 1000000

/-! Shallow embedding of the CLARITY AI online intent-clustering engine:
the grouping module of src/extension/src/shared/ai-client.js (tokenize,
vectorize, cosine, mergeCentroid, divergenceScore, clusterTabs,
topDivergence) and the persistence/validation pieces of
src/extension/src/background/service-worker.js (loadState group
restoration, aiClusterTabsWithTitles group validation).

JavaScript numbers are modeled as real numbers; JavaScript `Map`s as
insertion-ordered association lists; `Math.random()` id suffixes and
`Date.now()` as explicit parameters. -/

noncomputable section

/-- `m.get(k)` of a JS `Map` modeled as an association list: the entry of the
first (and, for maps built by `jset`, only) occurrence of the key. -/
def jlookup {α β : Type} [DecidableEq α] : List (α × β) → α → Option β
  | [], _ => none
  | p :: rest, k => if p.1 = k then some p.2 else jlookup rest k

/-- `m.has(k)`. -/
def jhas {α β : Type} [DecidableEq α] (m : List (α × β)) (k : α) : Bool :=
  (jlookup m k).isSome

/-- `m.set(k, v)`: overwrite in place when the key is present, append otherwise
(JS `Map.set` keeps the original insertion position on overwrite). -/
def jset {α β : Type} [DecidableEq α] : List (α × β) → α → β → List (α × β)
  | [], k, v => [(k, v)]
  | p :: rest, k, v => if p.1 = k then (k, v) :: rest else p :: jset rest k v

/-- The keys of a JS map, in insertion order. -/
def jkeys {α β : Type} (m : List (α × β)) : List α := m.map Prod.fst

/-- Sparse feature vector: a JS `Map<string, number>`. -/
abbrev Vec := List (String × ℝ)

/-- `v.get(k) || 0`: stored weight of a key, defaulting to `0`. -/
def Vec.getv (v : Vec) (k : String) : ℝ := (jlookup v k).getD 0

/-- Stop-word set of the grouping module. -/
def STOPWORDS : List String :=
  ["the", "a", "an", "and", "or", "for", "to", "in", "of", "on", "at", "by",
   "with", "from", "as", "is", "are", "be", "was", "were", "it", "this",
   "that", "these", "those", "you", "your", "my", "we", "our", "they",
   "how", "what", "why", "when", "where", "which", "can", "could", "should",
   "would", "vs", "v", "amp"]

def TOKEN_MIN_LEN : ℕ := 2

def DEFAULT_SIM_THRESHOLD : ℝ := 0.6

def HOST_BONUS : ℝ := 0.08

def NEW_GROUP_PENALTY : ℝ := 0.02

/-- Whitespace as matched by the tokenizer's split regex. -/
def isSpaceChar (c : Char) : Bool :=
  c == ' ' || c == '\t' || c == '\n' || c == '\r'

/-- ASCII lowercasing (String.prototype.toLowerCase on the ASCII data the
engine deals in). Written on characters so that terms reduce inside the
kernel, which the core library's position-based string functions do not. -/
def lowerChar (c : Char) : Char :=
  if 'A' ≤ c ∧ c ≤ 'Z' then Char.ofNat (c.toNat + 32) else c

/-- Character-level lowercasing of a string. -/
def strLower (s : String) : String := String.mk (s.data.map lowerChar)

def isAlphaNumChar (c : Char) : Bool :=
  (decide ('a' ≤ c) && decide (c ≤ 'z')) || (decide ('0' ≤ c) && decide (c ≤ '9'))

/-- Splitting on whitespace runs. The regex split of the source also yields
empty pieces at the borders, but those are removed by the tokenizer's
`t != ""` filter, so they are dropped here directly. -/
def splitWsGo : List Char → List Char → List String
  | [], acc => if acc.isEmpty then [] else [String.mk acc.reverse]
  | c :: cs, acc =>
    if isSpaceChar c then
      if acc.isEmpty then splitWsGo cs [] else String.mk acc.reverse :: splitWsGo cs []
    else splitWsGo cs (c :: acc)

def splitWs (cs : List Char) : List String := splitWsGo cs []

/-- tokenize: lowercase, turn `_`/`-` and all other non-`[a-z0-9]` characters
into spaces, split on whitespace, drop empty/short/stop-word tokens. -/
def tokenize (text : String) : List String :=
  let lowered := text.data.map lowerChar
  let dashed := lowered.map (fun c => if c == '_' || c == '-' then ' ' else c)
  let cleaned := dashed.map (fun c =>
    if isAlphaNumChar c || isSpaceChar c then c else ' ')
  (splitWs cleaned).filter
    (fun t => t != "" && decide (TOKEN_MIN_LEN ≤ t.length) && !(STOPWORDS.contains t))

/-- Prefix test on character lists (String.prototype.startsWith). -/
def leadsWith : List Char → List Char → Bool
  | [], _ => true
  | _ :: _, [] => false
  | a :: as, b :: bs => a == b && leadsWith as bs

/-- The `^https?:` test of `urlFromString` (case-insensitive). -/
def isHttpUrl (s : String) : Bool :=
  leadsWith "http:".data (strLower s).data || leadsWith "https:".data (strLower s).data

/-- Models the browser URL built-in for http(s) URLs: `host` is the authority
(up to the first `/`, `?` or `#` after the optional `//`), the pathname is
what follows up to `?` or `#`. -/
def urlParts (s : String) : String × String :=
  let cs := s.data
  let afterScheme := if leadsWith "https:".data (strLower s).data then cs.drop 6 else cs.drop 5
  let rest := if leadsWith "//".data afterScheme then afterScheme.drop 2 else afterScheme
  let hostCs := rest.takeWhile (fun c => !(c == '/' || c == '?' || c == '#'))
  let afterHost := rest.drop hostCs.length
  let path := afterHost.takeWhile (fun c => !(c == '?' || c == '#'))
  (String.mk hostCs, String.mk path)

/-- parseUrl: host (lowercased) and path tokens of an http(s) URL; anything
else yields no host and no tokens. -/
def parseUrl (url : String) : String × List String :=
  if isHttpUrl url then
    let hp := urlParts url
    (strLower hp.1, tokenize (String.mk (hp.2.data.map (fun c => if c == '/' then ' ' else c))))
  else ("", [])

/-- The term-frequency pass of vectorize (insertion-ordered counts). -/
def freqs (tokens : List String) : List (String × ℕ) :=
  tokens.foldl (fun m t => jset m t ((jlookup m t).getD 0 + 1)) []

/-- vectorize: replace each term frequency `f` by `sqrt f`. -/
def vectorize (tokens : List String) : Vec :=
  (freqs tokens).map (fun p => (p.1, Real.sqrt (p.2 : ℝ)))

/-- Splitting a host name on `.` (String.prototype.split with a string
separator: empty pieces are kept). -/
def splitDotGo : List Char → List Char → List String
  | [], acc => [String.mk acc.reverse]
  | c :: cs, acc =>
    if c == '.' then String.mk acc.reverse :: splitDotGo cs [] else splitDotGo cs (c :: acc)

/-- Joining DNS labels back with `.` (Array.prototype.join). -/
def joinDots : List String → String
  | [] => ""
  | [s] => s
  | s :: rest => s ++ "." ++ joinDots rest

/-- The `host:<registrable domain>` pseudo-token (last two DNS labels; `.slice(-2)`
keeps the whole list when it has fewer than two elements). -/
def hostToken (host : String) : String :=
  let parts := splitDotGo host.data []
  "host:" ++ joinDots (parts.drop (parts.length - 2))

/-- Sum of the squares of a map's stored values (the squared `norm` of the
source's cosine). -/
def sumSq (v : Vec) : ℝ := (v.map (fun p => p.2 ^ 2)).sum

/-- The dot-product loop of cosine: iterate one map, look each key up in the
other, skipping keys that are absent or have weight `0` (JS falsiness). -/
def dotList (s l : Vec) : ℝ :=
  (s.map (fun p => if Vec.getv l p.1 = 0 then 0 else p.2 * Vec.getv l p.1)).sum

/-- cosine similarity for sparse maps, exactly as in the source: `0` when a map
is empty, the dot product iterated over the smaller map, divided by the product
of Euclidean norms, `0` when that denominator is zero. -/
def cosine (a b : Vec) : ℝ :=
  if a.length = 0 ∨ b.length = 0 then 0
  else
    let sl := if a.length ≤ b.length then (a, b) else (b, a)
    let dot := dotList sl.1 sl.2
    let denom := Real.sqrt (sumSq a) * Real.sqrt (sumSq b)
    if denom = 0 then 0 else dot / denom

/-- mergeCentroid: incremental mean for keys of `vec`, then the decay pass
scaling keys absent from `vec` by `n / (n + 1)`. -/
def mergeCentroid (centroid vec : Vec) (n : ℕ) : Vec :=
  let out := vec.foldl
    (fun acc p => jset acc p.1 ((Vec.getv acc p.1 * (n : ℝ) + p.2) / ((n : ℝ) + 1))) centroid
  out.map (fun q => if jhas vec q.1 then q else (q.1, q.2 * (n : ℝ) / ((n : ℝ) + 1)))

structure GroupStats where
  size : ℕ
  lastUpdated : ℕ
deriving DecidableEq

structure TabGroup where
  id : String
  label : String
  summary : String
  tabIds : List ℕ
  centroid : Vec
  stats : GroupStats

instance : Inhabited TabGroup :=
  ⟨{ id := "", label := "", summary := "", tabIds := [], centroid := [],
     stats := { size := 0, lastUpdated := 0 } }⟩

/-- divergenceScore: dissimilarity of the centroids weighted by size balance. -/
def divergenceScore (g1 g2 : TabGroup) : ℝ :=
  let sim := cosine g1.centroid g2.centroid
  let sizeFactor := min (g1.stats.size : ℝ) (g2.stats.size : ℝ) /
    max 1 (((g1.stats.size : ℝ) + (g2.stats.size : ℝ)) / 2)
  (1 - sim) * (0.5 + 0.5 * sizeFactor)

/-- groupIdFrom: first three seed tokens joined by `-` (or `group` when that is
empty), then a `-` and the random suffix, which is passed in explicitly here
because the source draws it from `Math.random()`. -/
def joinDashes : List String → String
  | [] => ""
  | [s] => s
  | s :: rest => s ++ "-" ++ joinDashes rest

def groupIdFrom (seedTokens : List String) (rand : String) : String :=
  let base := joinDashes (seedTokens.take 3)
  (if base = "" then "group" else base) ++ "-" ++ rand

structure TabMeta where
  id : ℕ
  title : String
  url : String
  contextTokens : List String
deriving DecidableEq

structure TabFeatures where
  vec : Vec
  host : String
  allTokens : List String

/-- tabVector: title, URL-path and (prefixed, capped) context tokens
vectorized, plus `Math.SQRT2` added onto the host pseudo-token. -/
def tabVector (tab : TabMeta) : TabFeatures :=
  let titleTokens := tokenize tab.title
  let hp := parseUrl tab.url
  let contextScaled := (tab.contextTokens.take 120).map (fun t => "ctx:" ++ t)
  let allTokens := titleTokens ++ hp.2 ++ contextScaled
  let vec := vectorize allTokens
  let vec2 :=
    if hp.1 ≠ "" then
      jset vec (hostToken hp.1) (Vec.getv vec (hostToken hp.1) + Real.sqrt 2)
    else vec
  { vec := vec2, host := hp.1, allTokens := allTokens }

structure ClusterOptions where
  similarityThreshold : Option ℝ

/-- `options.similarityThreshold ?? DEFAULT_SIM_THRESHOLD`. -/
def ClusterOptions.threshold (o : ClusterOptions) : ℝ :=
  o.similarityThreshold.getD DEFAULT_SIM_THRESHOLD

/-- State of the per-tab loop of clusterTabs: the growing group array, the
assignments map, and how many new groups have been created (which indexes the
random-suffix supply). -/
structure ClusterState where
  groups : List TabGroup
  assignments : List (ℕ × String)
  fresh : ℕ

/-- The score a tab's features give an existing group: cosine against the
group's centroid, plus the host bonus when the tab has a host, the group has
at least two members and the group's centroid holds the host pseudo-token. -/
def stepScore (fv : TabFeatures) (g : TabGroup) : ℝ :=
  let base := cosine fv.vec g.centroid
  if fv.host ≠ "" ∧ 2 ≤ g.stats.size then
    (if jhas g.centroid (hostToken fv.host) then base + HOST_BONUS else base)
  else base

/-- One iteration of the best-score scan in clusterTabs: the running best is
replaced only on strict improvement. `none` plays the role of the source's
`-1` sentinel index. -/
def bestStep (fv : TabFeatures) (st : Option ℕ × ℝ) (ig : ℕ × TabGroup) : Option ℕ × ℝ :=
  if st.2 < stepScore fv ig.2 then (some ig.1, stepScore fv ig.2) else st

/-- The full best-score scan, starting from `threshold - NEW_GROUP_PENALTY`. -/
def findBest (fv : TabFeatures) (init : ℝ) (groups : List TabGroup) : Option ℕ × ℝ :=
  groups.enum.foldl (bestStep fv) (none, init)

/-- Replace the element at an index of a list (the `groups[bestIdx]` mutation). -/
def updateAt {α : Type} : List α → ℕ → (α → α) → List α
  | [], _, _ => []
  | a :: l, 0, f => f a :: l
  | a :: l, n + 1, f => a :: updateAt l n f

/-- Body of the per-tab loop of clusterTabs: either append the tab to the best
group (updating centroid and size) or start a new singleton group with a fresh
id. The `none` fallback of the index lookup is unreachable because `findBest`
only produces indices of existing groups. -/
def assignOne (threshold : ℝ) (now : ℕ) (rands : ℕ → String) (st : ClusterState)
    (t : TabMeta) (fv : TabFeatures) : ClusterState :=
  match (findBest fv (threshold - NEW_GROUP_PENALTY) st.groups).1 with
  | none =>
    let id := groupIdFrom fv.allTokens (rands st.fresh)
    let newG : TabGroup :=
      { id := id, label := "", summary := "", tabIds := [t.id],
        centroid := fv.vec, stats := { size := 1, lastUpdated := now } }
    { groups := st.groups ++ [newG],
      assignments := jset st.assignments t.id id,
      fresh := st.fresh + 1 }
  | some j =>
    match st.groups.get? j with
    | none => st
    | some g =>
      let g2 : TabGroup :=
        { id := g.id, label := g.label, summary := g.summary,
          tabIds := g.tabIds ++ [t.id],
          centroid := mergeCentroid g.centroid fv.vec g.stats.size,
          stats := { size := g.stats.size + 1, lastUpdated := now } }
      { groups := updateAt st.groups j (fun _ => g2),
        assignments := jset st.assignments t.id g.id,
        fresh := st.fresh }

/-- The seed cloning at the top of clusterTabs: labels and summaries carried,
membership cleared, centroid copied, size reset to `0`. -/
def cloneSeed (now : ℕ) (g : TabGroup) : TabGroup :=
  { id := g.id, label := g.label, summary := g.summary, tabIds := [],
    centroid := g.centroid, stats := { size := 0, lastUpdated := now } }

/-- Ordering used for the final sort: descending by size. -/
def bySizeDesc (a b : TabGroup) : Prop := b.stats.size ≤ a.stats.size

instance : DecidableRel bySizeDesc :=
  fun a b => inferInstanceAs (Decidable (b.stats.size ≤ a.stats.size))

/-- clusterTabs: single-pass greedy clustering of a tab batch against seed
clusters. `now` stands for `Date.now()` and `rands` for the `Math.random()`
suffixes of new group ids; JS `Array.prototype.sort` (stable) is modeled by
insertion sort. -/
def clusterTabs (tabMetas : List TabMeta) (prevGroups : List TabGroup)
    (options : ClusterOptions) (now : ℕ) (rands : ℕ → String) :
    List TabGroup × List (ℕ × String) :=
  let threshold := options.threshold
  let seeds := prevGroups.map (cloneSeed now)
  let vecs : List (ℕ × TabFeatures) :=
    tabMetas.foldl (fun m t => jset m t.id (tabVector t)) []
  let final := tabMetas.foldl
    (fun st t => assignOne threshold now rands st t
      ((jlookup vecs t.id).getD { vec := [], host := "", allTokens := [] }))
    { groups := seeds, assignments := [], fresh := 0 }
  let filtered := (final.groups.filter (fun g => decide (0 < g.tabIds.length))).insertionSort
    bySizeDesc
  (filtered, final.assignments)

/-- topDivergence: the first two groups (the two largest when the list comes
from clusterTabs) and their divergence; `none` models a `null` argument. -/
def topDivergence : Option (List TabGroup) → Option (TabGroup × TabGroup) × ℝ
  | none => (none, 0)
  | some gs =>
    match gs with
    | g1 :: g2 :: _ => (some (g1, g2), divergenceScore g1 g2)
    | _ => (none, 0)

/-- The serialized form persistState writes for a group: centroid omitted. -/
structure StoredGroup where
  id : String
  label : String
  summary : String
  tabIds : List ℕ
  stats : GroupStats
deriving DecidableEq

/-- persistState's projection of a group to its serialized form. -/
def serializeGroup (g : TabGroup) : StoredGroup :=
  { id := g.id, label := g.label, summary := g.summary, tabIds := g.tabIds,
    stats := g.stats }

/-- The group restoration of loadState: tabIds, label, summary and stats kept,
centroid reset to an empty map. -/
def loadStateGroups (stored : List StoredGroup) : List TabGroup :=
  stored.map (fun g =>
    { id := g.id, label := g.label, summary := g.summary, tabIds := g.tabIds,
      centroid := [], stats := g.stats })

/-- `String.prototype.slice(0, n)` (character-level, kernel-reducible). -/
def strTake (s : String) (n : ℕ) : String := String.mk (s.data.take n)

/-- A group as parsed out of the semantic-clustering collaborator's reply;
`tabIds = none` models a missing or non-array field. -/
structure RawAiGroup where
  label : String
  summary : String
  tabIds : Option (List ℕ)
deriving DecidableEq

/-- A validated group accepted by aiClusterTabsWithTitles. -/
structure AiGroup where
  label : String
  summary : String
  tabIds : List ℕ
deriving DecidableEq

/-- The validation loop of aiClusterTabsWithTitles: skip malformed groups,
keep only tab ids present in the payload, skip groups left empty, truncate
label and summary, stop once `maxGroups` groups have been accepted (the break
fires after the push, so `count` is the number already accepted). -/
def acceptLoop (validIds : List ℕ) (maxGroups : ℕ) : List RawAiGroup → ℕ → List AiGroup
  | [], _ => []
  | r :: rest, count =>
    match r.tabIds with
    | none => acceptLoop validIds maxGroups rest count
    | some ids =>
      let kept := ids.filter (fun i => validIds.contains i)
      if kept.length = 0 then acceptLoop validIds maxGroups rest count
      else
        let g : AiGroup := { label := if strTake r.label 24 = "" then "Group" else strTake r.label 24,
                             summary := strTake r.summary 120, tabIds := kept }
        if maxGroups ≤ count + 1 then [g] else g :: acceptLoop validIds maxGroups rest (count + 1)

/-- aiClusterTabsWithTitles' validation stage: the payload is the first 60
tabs, and groups are accepted by `acceptLoop` against those ids. -/
def acceptGroups (tabsMeta : List TabMeta) (maxGroups : ℕ) (raws : List RawAiGroup) :
    List AiGroup :=
  acceptLoop ((tabsMeta.take 60).map TabMeta.id) maxGroups raws 0

/-- The set of keys of a sparse vector (for reindexing sums). -/
def keyFinset (v : Vec) : Finset String := (jkeys v).toFinset

/-- All stored weights of a vector are non-negative. -/
def VNonneg (v : Vec) : Prop := ∀ p ∈ v, 0 ≤ p.2

/-- The id-free content of a group: membership, centroid and size. Two runs of
clusterTabs that differ only in the random id suffixes (and the clock) agree
on this projection. -/
def ecore (g : TabGroup) : List ℕ × Vec × ℕ := (g.tabIds, g.centroid, g.stats.size)

/-- The descending-size order transported to group cores. -/
def coreSizeDesc (x y : List ℕ × Vec × ℕ) : Prop := y.2.2 ≤ x.2.2

instance : DecidableRel coreSizeDesc :=
  fun x y => inferInstanceAs (Decidable (y.2.2 ≤ x.2.2))

instance : IsTotal TabGroup bySizeDesc :=
  ⟨fun a b => le_total b.stats.size a.stats.size⟩

instance : IsTrans TabGroup bySizeDesc :=
  ⟨fun _ _ _ hab hbc => le_trans hbc hab⟩

/-- Modelled from the amended validation rule for comparison with the code:
a reply group is dropped when malformed or when no referenced tab id is in
the payload; otherwise it is kept with its tab ids filtered to payload ids
and its label/summary truncated. -/
def specAcceptFilter (validIds : List ℕ) (r : RawAiGroup) : Option AiGroup :=
  match r.tabIds with
  | none => none
  | some ids =>
    let kept := ids.filter (fun i => validIds.contains i)
    if kept.length = 0 then none
    else some { label := if strTake r.label 24 = "" then "Group" else strTake r.label 24,
                summary := strTake r.summary 120, tabIds := kept }

/-- The surrounding error policy: an empty accepted list is the
`ai_group_empty` error. -/
def aiClusterValidate (tabsMeta : List TabMeta) (maxGroups : ℕ) (raws : List RawAiGroup) :
    Except String (List AiGroup) :=
  let gs := acceptGroups tabsMeta maxGroups raws
  if gs.length = 0 then Except.error "ai_group_empty" else Except.ok gs

end


/-! ### Association-list (JS `Map`) lemmas -/

theorem jlookup_jset {α β : Type} [DecidableEq α] (m : List (α × β)) (k k' : α) (v : β) :
    jlookup (jset m k v) k' = if k' = k then some v else jlookup m k' := by
  induction m with
  | nil =>
    by_cases h : k' = k
    · simp [jset, jlookup, h]
    · simp [jset, jlookup, h, Ne.symm h]
  | cons p rest ih =>
    obtain ⟨a, b⟩ := p
    simp only [jset]
    by_cases hak : a = k
    · subst hak
      by_cases hk : k' = a
      · subst hk
        simp [jlookup]
      · simp [jlookup, hk, Ne.symm hk]
    · rw [if_neg hak]
      by_cases hak' : a = k'
      · have hk'k : ¬k' = k := fun h => hak (hak'.trans h)
        simp only [jlookup, if_pos hak', if_neg hk'k]
      · simp only [jlookup, if_neg hak', ih]

theorem jhas_jset {α β : Type} [DecidableEq α] (m : List (α × β)) (k k' : α) (v : β) :
    jhas (jset m k v) k' = (decide (k' = k) || jhas m k') := by
  by_cases h : k' = k <;> simp [jhas, jlookup_jset, h]

theorem jlookup_eq_none_iff {α β : Type} [DecidableEq α] (m : List (α × β)) (k : α) :
    jlookup m k = none ↔ k ∉ jkeys m := by
  induction m with
  | nil => simp [jlookup, jkeys]
  | cons p rest ih =>
    by_cases h : p.1 = k
    · simp [jlookup, jkeys, h]
    · simp [jlookup, jkeys, h, ih, Ne.symm h]

theorem jlookup_mem {α β : Type} [DecidableEq α] {m : List (α × β)} {k : α} {v : β}
    (h : jlookup m k = some v) : (k, v) ∈ m := by
  induction m with
  | nil => simp [jlookup] at h
  | cons p rest ih =>
    obtain ⟨a, b⟩ := p
    by_cases hp : a = k
    · subst hp
      simp [jlookup] at h
      subst h
      exact List.mem_cons_self _ _
    · simp [jlookup, hp] at h
      exact List.mem_cons_of_mem _ (ih h)

theorem getv_jset (v : Vec) (k k' : String) (x : ℝ) :
    Vec.getv (jset v k x) k' = if k' = k then x else Vec.getv v k' := by
  by_cases h : k' = k <;> simp [Vec.getv, jlookup_jset, h]

theorem getv_cons_ne (a : String × ℝ) (v : Vec) (k : String) (h : ¬(a.1 = k)) :
    Vec.getv (a :: v) k = Vec.getv v k := by
  simp [Vec.getv, jlookup, h]

theorem getv_cons_self (a : String × ℝ) (v : Vec) : Vec.getv (a :: v) a.1 = a.2 := by
  simp [Vec.getv, jlookup]

theorem getv_eq_zero_of_not_mem {v : Vec} {k : String} (h : k ∉ jkeys v) :
    Vec.getv v k = 0 := by
  simp [Vec.getv, (jlookup_eq_none_iff v k).mpr h]

theorem jkeys_cons {α β : Type} (p : α × β) (rest : List (α × β)) :
    jkeys (p :: rest) = p.1 :: jkeys rest := by
  simp [jkeys]

/-! ### mergeCentroid -/

theorem merge_foldl_getv (n : ℕ) (vec : Vec) : ∀ (c : Vec), (jkeys vec).Nodup → ∀ k,
    Vec.getv (vec.foldl
      (fun acc p => jset acc p.1 ((Vec.getv acc p.1 * (n : ℝ) + p.2) / ((n : ℝ) + 1))) c) k =
    if k ∈ jkeys vec then (Vec.getv c k * (n : ℝ) + Vec.getv vec k) / ((n : ℝ) + 1)
    else Vec.getv c k := by
  induction vec with
  | nil => intro c _ k; simp [jkeys]
  | cons p rest ih =>
    intro c hnd k
    rw [jkeys_cons, List.nodup_cons] at hnd
    obtain ⟨hp1, hnd2⟩ := hnd
    rw [List.foldl_cons, ih _ hnd2 k, jkeys_cons]
    by_cases hkp : k = p.1
    · subst hkp
      rw [if_neg hp1, if_pos (List.mem_cons_self _ _), getv_jset, if_pos rfl, getv_cons_self]
    · have hgc : Vec.getv (jset c p.1 ((Vec.getv c p.1 * (n : ℝ) + p.2) / ((n : ℝ) + 1))) k =
          Vec.getv c k := by
        rw [getv_jset, if_neg hkp]
      by_cases hk : k ∈ jkeys rest
      · rw [if_pos hk, if_pos (List.mem_cons_of_mem _ hk), hgc,
          getv_cons_ne _ _ _ (fun h => hkp h.symm)]
      · rw [if_neg hk, hgc, if_neg (by simp [List.mem_cons, hkp, hk])]

theorem jhas_foldl_jset (n : ℕ) (vec : Vec) : ∀ (c : Vec) (k : String),
    jhas (vec.foldl
      (fun acc p => jset acc p.1 ((Vec.getv acc p.1 * (n : ℝ) + p.2) / ((n : ℝ) + 1))) c) k =
    (jhas c k || decide (k ∈ jkeys vec)) := by
  induction vec with
  | nil => intro c k; simp [jkeys]
  | cons p rest ih =>
    intro c k
    rw [List.foldl_cons, ih, jhas_jset, jkeys_cons]
    by_cases hkp : k = p.1 <;>
      simp [hkp, List.mem_cons, Bool.or_assoc, Bool.or_comm, Bool.or_left_comm]

theorem jlookup_map_snd {α β γ : Type} [DecidableEq α] (m : List (α × β)) (f : α → β → γ)
    (k : α) :
    jlookup (m.map (fun q => (q.1, f q.1 q.2))) k = (jlookup m k).map (f k) := by
  induction m with
  | nil => simp [jlookup]
  | cons p rest ih =>
    by_cases h : p.1 = k
    · subst h
      simp [jlookup, ih]
    · simp [jlookup, h, ih]

theorem map_ite_pair (v : Vec) (n : ℕ) (m : Vec) :
    m.map (fun q => if jhas v q.1 then q else (q.1, q.2 * (n : ℝ) / ((n : ℝ) + 1))) =
    m.map (fun q => (q.1, if jhas v q.1 then q.2 else q.2 * (n : ℝ) / ((n : ℝ) + 1))) := by
  induction m with
  | nil => rfl
  | cons q rest ih => by_cases h : jhas v q.1 <;> simp [h, ih]

/-- The decay pass of mergeCentroid written as a key-preserving value map. -/
theorem mergeCentroid_eq_map (c v : Vec) (n : ℕ) :
    mergeCentroid c v n =
    (v.foldl (fun acc p => jset acc p.1 ((Vec.getv acc p.1 * (n : ℝ) + p.2) / ((n : ℝ) + 1))) c).map
      (fun q => (q.1, if jhas v q.1 then q.2 else q.2 * (n : ℝ) / ((n : ℝ) + 1))) :=
  map_ite_pair v n _

theorem jhas_iff_mem {α β : Type} [DecidableEq α] (m : List (α × β)) (k : α) :
    jhas m k = true ↔ k ∈ jkeys m := by
  unfold jhas
  rcases h : jlookup m k with _ | x
  · simp [(jlookup_eq_none_iff m k).mp h]
  · have hm : k ∈ jkeys m := List.mem_map_of_mem Prod.fst (jlookup_mem h)
    simp [hm]

theorem getv_map_snd (m : Vec) (f : String → ℝ → ℝ) (hf : ∀ k, f k 0 = 0) (k : String) :
    Vec.getv (m.map (fun q => (q.1, f q.1 q.2))) k = f k (Vec.getv m k) := by
  unfold Vec.getv
  rw [jlookup_map_snd]
  rcases h : jlookup m k with _ | x
  · simp [hf]
  · simp

theorem getv_decay (v : Vec) (n : ℕ) (m : Vec) (k : String) :
    Vec.getv (m.map (fun q =>
      (q.1, if jhas v q.1 then q.2 else q.2 * (n : ℝ) / ((n : ℝ) + 1)))) k =
    if jhas v k then Vec.getv m k else Vec.getv m k * (n : ℝ) / ((n : ℝ) + 1) := by
  induction m with
  | nil => by_cases h : jhas v k <;> simp [h, Vec.getv, jlookup]
  | cons q rest ih =>
    obtain ⟨a, b⟩ := q
    by_cases hq : a = k
    · subst hq
      by_cases h : jhas v a <;> simp [h, Vec.getv, jlookup]
    · have h1 : Vec.getv ((a, b) :: rest) k = Vec.getv rest k := getv_cons_ne (a, b) rest k hq
      calc Vec.getv (((a, b) :: rest).map (fun q =>
            (q.1, if jhas v q.1 then q.2 else q.2 * (n : ℝ) / ((n : ℝ) + 1)))) k
          = Vec.getv (rest.map (fun q =>
            (q.1, if jhas v q.1 then q.2 else q.2 * (n : ℝ) / ((n : ℝ) + 1)))) k := by
            simp only [List.map_cons]
            exact getv_cons_ne _ _ k hq
        _ = if jhas v k then Vec.getv rest k
            else Vec.getv rest k * (n : ℝ) / ((n : ℝ) + 1) := ih
        _ = if jhas v k then Vec.getv ((a, b) :: rest) k
            else Vec.getv ((a, b) :: rest) k * (n : ℝ) / ((n : ℝ) + 1) := by rw [h1]

theorem jhas_decay (v : Vec) (n : ℕ) (m : Vec) (k : String) :
    jhas (m.map (fun q =>
      (q.1, if jhas v q.1 then q.2 else q.2 * (n : ℝ) / ((n : ℝ) + 1)))) k = jhas m k := by
  induction m with
  | nil => simp [jhas, jlookup]
  | cons q rest ih =>
    obtain ⟨a, b⟩ := q
    by_cases hq : a = k <;> simp [jhas, jlookup, hq] at ih ⊢ <;> exact ih

theorem mergeCentroid_getv (c v : Vec) (n : ℕ) (hv : (jkeys v).Nodup) (k : String) :
    Vec.getv (mergeCentroid c v n) k =
      (Vec.getv c k * (n : ℝ) + Vec.getv v k) / ((n : ℝ) + 1) := by
  rw [mergeCentroid_eq_map, getv_decay, merge_foldl_getv n v c hv k]
  by_cases hkv : k ∈ jkeys v
  · rw [if_pos hkv, if_pos ((jhas_iff_mem v k).mpr hkv)]
  · have hvb : ¬(jhas v k = true) := fun h => hkv ((jhas_iff_mem v k).mp h)
    rw [if_neg hkv, if_neg hvb, getv_eq_zero_of_not_mem hkv, add_zero]

theorem mergeCentroid_jhas (c v : Vec) (n : ℕ) (k : String) :
    jhas (mergeCentroid c v n) k = (jhas c k || jhas v k) := by
  rw [mergeCentroid_eq_map, jhas_decay, jhas_foldl_jset]
  congr 1
  by_cases h : k ∈ jkeys v
  · simp [h, (jhas_iff_mem v k).mpr h]
  · have hvb : ¬(jhas v k = true) := fun hh => h ((jhas_iff_mem v k).mp hh)
    simp [h, Bool.not_eq_true] at hvb ⊢
    simp [hvb]

/-- C6: the centroid update maps every key of the union to
`(prev * n + v[k]) / (n + 1)`, keys of the centroid absent from the member
vector are scaled by `n / (n + 1)`, and new keys get `v[k] / (n + 1)`. -/
theorem mergeCentroid_incremental_mean (c v : Vec) (n : ℕ) (hv : (jkeys v).Nodup) :
    (∀ k, Vec.getv (mergeCentroid c v n) k =
        (Vec.getv c k * (n : ℝ) + Vec.getv v k) / ((n : ℝ) + 1))
    ∧ (∀ k, jhas (mergeCentroid c v n) k = (jhas c k || jhas v k))
    ∧ (∀ k, jhas c k = true → jhas v k = false →
        Vec.getv (mergeCentroid c v n) k = Vec.getv c k * (n : ℝ) / ((n : ℝ) + 1))
    ∧ (∀ k, jhas c k = false → jhas v k = true →
        Vec.getv (mergeCentroid c v n) k = Vec.getv v k / ((n : ℝ) + 1)) := by
  refine ⟨fun k => mergeCentroid_getv c v n hv k, fun k => mergeCentroid_jhas c v n k,
    fun k _ hvk => ?_, fun k hck _ => ?_⟩
  · have hkv : k ∉ jkeys v := fun hm => by simp [(jhas_iff_mem v k).mpr hm] at hvk
    rw [mergeCentroid_getv c v n hv k, getv_eq_zero_of_not_mem hkv, add_zero]
  · have hkc : k ∉ jkeys c := fun hm => by simp [(jhas_iff_mem c k).mpr hm] at hck
    rw [mergeCentroid_getv c v n hv k, getv_eq_zero_of_not_mem hkc, zero_mul, zero_add]

/-- Witness for C6 at a concrete centroid, member vector and size. -/
theorem mergeCentroid_incremental_mean_witness :
    (jkeys [("b", (3 : ℝ))]).Nodup ∧
    ((∀ k, Vec.getv (mergeCentroid [("a", 2)] [("b", (3 : ℝ))] 1) k =
        (Vec.getv [("a", 2)] k * ((1 : ℕ) : ℝ) + Vec.getv [("b", (3 : ℝ))] k) / (((1 : ℕ) : ℝ) + 1))
      ∧ (∀ k, jhas (mergeCentroid [("a", 2)] [("b", (3 : ℝ))] 1) k =
          (jhas [("a", (2 : ℝ))] k || jhas [("b", (3 : ℝ))] k))
      ∧ (∀ k, jhas [("a", (2 : ℝ))] k = true → jhas [("b", (3 : ℝ))] k = false →
          Vec.getv (mergeCentroid [("a", 2)] [("b", (3 : ℝ))] 1) k =
            Vec.getv [("a", 2)] k * ((1 : ℕ) : ℝ) / (((1 : ℕ) : ℝ) + 1))
      ∧ (∀ k, jhas [("a", (2 : ℝ))] k = false → jhas [("b", (3 : ℝ))] k = true →
          Vec.getv (mergeCentroid [("a", 2)] [("b", (3 : ℝ))] 1) k =
            Vec.getv [("b", (3 : ℝ))] k / (((1 : ℕ) : ℝ) + 1))) :=
  ⟨by decide, mergeCentroid_incremental_mean [("a", 2)] [("b", (3 : ℝ))] 1 (by decide)⟩

/-! ### Cosine: reindexing the list sums as finite sums over key sets -/

theorem getv_nonneg {v : Vec} (hv : VNonneg v) (k : String) : 0 ≤ Vec.getv v k := by
  unfold Vec.getv
  rcases h : jlookup v k with _ | x
  · simp
  · simpa using hv (k, x) (jlookup_mem h)

theorem sumSq_nonneg (v : Vec) : 0 ≤ sumSq v := by
  apply List.sum_nonneg
  intro x hx
  obtain ⟨p, _, rfl⟩ := List.mem_map.mp hx
  positivity

theorem sumSq_eq_sum (v : Vec) (hv : (jkeys v).Nodup) :
    sumSq v = ∑ k ∈ keyFinset v, Vec.getv v k ^ 2 := by
  induction v with
  | nil => simp [sumSq, keyFinset, jkeys]
  | cons p rest ih =>
    rw [jkeys_cons, List.nodup_cons] at hv
    obtain ⟨hp, hnd⟩ := hv
    have hpf : p.1 ∉ keyFinset rest := by simpa [keyFinset] using hp
    have h1 : keyFinset (p :: rest) = insert p.1 (keyFinset rest) := by
      simp [keyFinset, jkeys]
    rw [h1, Finset.sum_insert hpf]
    have h2 : sumSq (p :: rest) = p.2 ^ 2 + sumSq rest := by
      simp [sumSq]
    rw [h2, ih hnd, getv_cons_self]
    congr 1
    apply Finset.sum_congr rfl
    intro k hk
    have hkp : ¬(p.1 = k) := by
      intro h
      exact hpf (h ▸ hk)
    rw [getv_cons_ne _ _ _ hkp]

theorem dot_term_eq (x y : ℝ) : (if y = 0 then 0 else x * y) = x * y := by
  by_cases h : y = 0 <;> simp [h]

theorem dotList_eq_sum (s l : Vec) (hs : (jkeys s).Nodup) :
    dotList s l = ∑ k ∈ keyFinset s, Vec.getv s k * Vec.getv l k := by
  induction s with
  | nil => simp [dotList, keyFinset, jkeys]
  | cons p rest ih =>
    rw [jkeys_cons, List.nodup_cons] at hs
    obtain ⟨hp, hnd⟩ := hs
    have hpf : p.1 ∉ keyFinset rest := by simpa [keyFinset] using hp
    have h1 : keyFinset (p :: rest) = insert p.1 (keyFinset rest) := by
      simp [keyFinset, jkeys]
    rw [h1, Finset.sum_insert hpf]
    have h2 : dotList (p :: rest) l = (if Vec.getv l p.1 = 0 then 0 else p.2 * Vec.getv l p.1)
        + dotList rest l := by
      simp [dotList]
    rw [h2, dot_term_eq, ih hnd, getv_cons_self]
    congr 1
    apply Finset.sum_congr rfl
    intro k hk
    have hkp : ¬(p.1 = k) := by
      intro h
      exact hpf (h ▸ hk)
    rw [getv_cons_ne _ _ _ hkp]

theorem sum_sq_superset (v : Vec) (hv : (jkeys v).Nodup) (u : Finset String)
    (hu : keyFinset v ⊆ u) :
    ∑ k ∈ u, Vec.getv v k ^ 2 = sumSq v := by
  rw [sumSq_eq_sum v hv]
  symm
  apply Finset.sum_subset hu
  intro k _ hk
  rw [getv_eq_zero_of_not_mem (by simpa [keyFinset] using hk)]
  norm_num

theorem dot_sum_superset (s l : Vec) (hs : (jkeys s).Nodup) (u : Finset String)
    (hu : keyFinset s ⊆ u) :
    ∑ k ∈ u, Vec.getv s k * Vec.getv l k = dotList s l := by
  rw [dotList_eq_sum s l hs]
  symm
  apply Finset.sum_subset hu
  intro k _ hk
  rw [getv_eq_zero_of_not_mem (by simpa [keyFinset] using hk)]
  ring

/-- cosine with the branch on map sizes resolved away. -/
theorem cosine_cases (a b : Vec) :
    cosine a b = if a.length = 0 ∨ b.length = 0 then 0
      else if Real.sqrt (sumSq a) * Real.sqrt (sumSq b) = 0 then 0
      else (if a.length ≤ b.length then dotList a b else dotList b a) /
        (Real.sqrt (sumSq a) * Real.sqrt (sumSq b)) := by
  unfold cosine
  by_cases hemp : a.length = 0 ∨ b.length = 0
  · rw [if_pos hemp, if_pos hemp]
  · rw [if_neg hemp, if_neg hemp]
    by_cases hle : a.length ≤ b.length <;> simp [hle]

/-- The normal form of cosine over the union of the key sets; Lean's
`x / 0 = 0` convention absorbs both zero branches of the source. -/
theorem cosine_eq_sum (a b : Vec) (ha : (jkeys a).Nodup) (hb : (jkeys b).Nodup) :
    cosine a b = (∑ k ∈ keyFinset a ∪ keyFinset b, Vec.getv a k * Vec.getv b k) /
      (Real.sqrt (∑ k ∈ keyFinset a ∪ keyFinset b, Vec.getv a k ^ 2) *
       Real.sqrt (∑ k ∈ keyFinset a ∪ keyFinset b, Vec.getv b k ^ 2)) := by
  rw [cosine_cases,
    sum_sq_superset a ha _ Finset.subset_union_left,
    sum_sq_superset b hb _ Finset.subset_union_right]
  by_cases hemp : a.length = 0 ∨ b.length = 0
  · rw [if_pos hemp]
    rcases hemp with h | h
    · have ha0 : a = [] := List.length_eq_zero.mp h
      subst ha0
      have : ∀ k ∈ keyFinset ([] : Vec) ∪ keyFinset b,
          Vec.getv ([] : Vec) k * Vec.getv b k = 0 := by
        intro k _
        simp [Vec.getv, jlookup]
      rw [Finset.sum_congr rfl this]
      simp
    · have hb0 : b = [] := List.length_eq_zero.mp h
      subst hb0
      have : ∀ k ∈ keyFinset a ∪ keyFinset ([] : Vec),
          Vec.getv a k * Vec.getv ([] : Vec) k = 0 := by
        intro k _
        simp [Vec.getv, jlookup]
      rw [Finset.sum_congr rfl this]
      simp
  · rw [if_neg hemp]
    by_cases hden : Real.sqrt (sumSq a) * Real.sqrt (sumSq b) = 0
    · rw [if_pos hden, hden, div_zero]
    · rw [if_neg hden]
      congr 1
      by_cases hle : a.length ≤ b.length
      · rw [if_pos hle, dot_sum_superset a b ha _ Finset.subset_union_left]
      · rw [if_neg hle, ← dot_sum_superset b a hb (keyFinset a ∪ keyFinset b)
          Finset.subset_union_right]
        apply Finset.sum_congr rfl
        intro k _
        ring

theorem cosine_empty_right (a : Vec) : cosine a [] = 0 := by
  unfold cosine
  simp

theorem cosine_empty_left (a : Vec) : cosine [] a = 0 := by
  unfold cosine
  simp

theorem cosine_comm (a b : Vec) (ha : (jkeys a).Nodup) (hb : (jkeys b).Nodup) :
    cosine a b = cosine b a := by
  rw [cosine_eq_sum a b ha hb, cosine_eq_sum b a hb ha, Finset.union_comm (keyFinset b)]
  congr 1
  · apply Finset.sum_congr rfl
    intro k _
    ring
  · ring

theorem cosine_nonneg (a b : Vec) (ha : (jkeys a).Nodup) (hb : (jkeys b).Nodup)
    (hna : VNonneg a) (hnb : VNonneg b) : 0 ≤ cosine a b := by
  rw [cosine_eq_sum a b ha hb]
  apply div_nonneg
  · apply Finset.sum_nonneg
    intro k _
    exact mul_nonneg (getv_nonneg hna k) (getv_nonneg hnb k)
  · exact mul_nonneg (Real.sqrt_nonneg _) (Real.sqrt_nonneg _)

theorem cosine_le_one (a b : Vec) (ha : (jkeys a).Nodup) (hb : (jkeys b).Nodup) :
    cosine a b ≤ 1 := by
  rw [cosine_eq_sum a b ha hb]
  have hCS := Finset.sum_mul_sq_le_sq_mul_sq (keyFinset a ∪ keyFinset b)
    (fun k => Vec.getv a k) (fun k => Vec.getv b k)
  have hNa : 0 ≤ ∑ k ∈ keyFinset a ∪ keyFinset b, Vec.getv a k ^ 2 :=
    Finset.sum_nonneg fun k _ => sq_nonneg _
  have hS : (∑ k ∈ keyFinset a ∪ keyFinset b, Vec.getv a k * Vec.getv b k) ≤
      Real.sqrt (∑ k ∈ keyFinset a ∪ keyFinset b, Vec.getv a k ^ 2) *
      Real.sqrt (∑ k ∈ keyFinset a ∪ keyFinset b, Vec.getv b k ^ 2) := by
    have h1 := le_abs_self (∑ k ∈ keyFinset a ∪ keyFinset b, Vec.getv a k * Vec.getv b k)
    have h2 := Real.sqrt_sq_eq_abs (∑ k ∈ keyFinset a ∪ keyFinset b, Vec.getv a k * Vec.getv b k)
    have h3 := Real.sqrt_le_sqrt hCS
    have h4 := Real.sqrt_mul hNa (∑ k ∈ keyFinset a ∪ keyFinset b, Vec.getv b k ^ 2)
    linarith
  by_cases hden : Real.sqrt (∑ k ∈ keyFinset a ∪ keyFinset b, Vec.getv a k ^ 2) *
      Real.sqrt (∑ k ∈ keyFinset a ∪ keyFinset b, Vec.getv b k ^ 2) = 0
  · rw [hden, div_zero]
    norm_num
  · have hpos : 0 < Real.sqrt (∑ k ∈ keyFinset a ∪ keyFinset b, Vec.getv a k ^ 2) *
        Real.sqrt (∑ k ∈ keyFinset a ∪ keyFinset b, Vec.getv b k ^ 2) :=
      lt_of_le_of_ne (mul_nonneg (Real.sqrt_nonneg _) (Real.sqrt_nonneg _)) (Ne.symm hden)
    exact (div_le_one hpos).mpr hS

theorem cosine_self (v : Vec) (hv : (jkeys v).Nodup) (hS : sumSq v ≠ 0) :
    cosine v v = 1 := by
  rw [cosine_eq_sum v v hv hv, Finset.union_self]
  have h1 : ∑ k ∈ keyFinset v, Vec.getv v k * Vec.getv v k = sumSq v := by
    rw [sumSq_eq_sum v hv]
    apply Finset.sum_congr rfl
    intro k _
    ring
  have h2 : ∑ k ∈ keyFinset v, Vec.getv v k ^ 2 = sumSq v := (sumSq_eq_sum v hv).symm
  rw [h1, h2, Real.mul_self_sqrt (sumSq_nonneg v), div_self hS]

/-- C5 (amended): cosine is 0 against an empty map, symmetric, bounded in
`[0, 1]` for non-negative maps, and `cosine v v = 1` for maps whose weights
are not all zero (`sumSq v ≠ 0`, which forces `v` non-empty). -/
theorem cosine_properties :
    (∀ a : Vec, cosine a [] = 0 ∧ cosine [] a = 0)
    ∧ (∀ a b : Vec, (jkeys a).Nodup → (jkeys b).Nodup → cosine a b = cosine b a)
    ∧ (∀ a b : Vec, (jkeys a).Nodup → (jkeys b).Nodup → VNonneg a → VNonneg b →
        0 ≤ cosine a b ∧ cosine a b ≤ 1)
    ∧ (∀ v : Vec, (jkeys v).Nodup → sumSq v ≠ 0 → cosine v v = 1) :=
  ⟨fun a => ⟨cosine_empty_right a, cosine_empty_left a⟩,
   fun a b ha hb => cosine_comm a b ha hb,
   fun a b ha hb hna hnb => ⟨cosine_nonneg a b ha hb hna hnb, cosine_le_one a b ha hb⟩,
   fun v hv hS => cosine_self v hv hS⟩

/-- C5 counterexample: the non-empty non-negative map with a single zero
weight has `cosine v v = 0`, not `1`. -/
theorem cosine_self_zero_weight :
    ([("a", (0 : ℝ))] : Vec) ≠ [] ∧ VNonneg [("a", (0 : ℝ))] ∧
    (jkeys ([("a", (0 : ℝ))] : Vec)).Nodup ∧
    cosine [("a", (0 : ℝ))] [("a", (0 : ℝ))] = 0 ∧
    cosine [("a", (0 : ℝ))] [("a", (0 : ℝ))] ≠ 1 := by
  have hc : cosine [("a", (0 : ℝ))] [("a", (0 : ℝ))] = 0 := by
    have hs : sumSq [("a", (0 : ℝ))] = 0 := by
      simp [sumSq]
    rw [cosine_cases]
    rw [if_neg (by norm_num), if_pos (by rw [hs, Real.sqrt_zero, mul_zero])]
  refine ⟨by simp, ?_, by decide, hc, by rw [hc]; norm_num⟩
  intro p hp
  rw [List.mem_singleton] at hp
  subst hp
  norm_num

/-- Witness for C5 at concrete one-entry maps. -/
theorem cosine_properties_witness :
    ((jkeys ([("x", (1 : ℝ))] : Vec)).Nodup ∧ (jkeys ([("y", (2 : ℝ))] : Vec)).Nodup ∧
      VNonneg [("x", (1 : ℝ))] ∧ VNonneg [("y", (2 : ℝ))] ∧ sumSq [("x", (1 : ℝ))] ≠ 0) ∧
    (cosine [("x", (1 : ℝ))] [] = 0 ∧ cosine [] [("x", (1 : ℝ))] = 0) ∧
    cosine [("x", (1 : ℝ))] [("y", (2 : ℝ))] = cosine [("y", (2 : ℝ))] [("x", (1 : ℝ))] ∧
    (0 ≤ cosine [("x", (1 : ℝ))] [("y", (2 : ℝ))] ∧
      cosine [("x", (1 : ℝ))] [("y", (2 : ℝ))] ≤ 1) ∧
    cosine [("x", (1 : ℝ))] [("x", (1 : ℝ))] = 1 := by
  have hx : VNonneg [("x", (1 : ℝ))] := by
    intro p hp
    rw [List.mem_singleton] at hp
    subst hp
    norm_num
  have hy : VNonneg [("y", (2 : ℝ))] := by
    intro p hp
    rw [List.mem_singleton] at hp
    subst hp
    norm_num
  have hs : sumSq [("x", (1 : ℝ))] ≠ 0 := by
    simp [sumSq]
  exact ⟨⟨by decide, by decide, hx, hy, hs⟩,
    cosine_properties.1 [("x", (1 : ℝ))],
    cosine_properties.2.1 [("x", (1 : ℝ))] [("y", (2 : ℝ))] (by decide) (by decide),
    cosine_properties.2.2.1 [("x", (1 : ℝ))] [("y", (2 : ℝ))] (by decide) (by decide) hx hy,
    cosine_properties.2.2.2 [("x", (1 : ℝ))] (by decide) hs⟩

/-! ### divergenceScore -/

theorem cosine_disjoint (a b : Vec) (ha : (jkeys a).Nodup) (hb : (jkeys b).Nodup)
    (hd : Disjoint (keyFinset a) (keyFinset b)) : cosine a b = 0 := by
  rw [cosine_eq_sum a b ha hb]
  have hz : ∀ k ∈ keyFinset a ∪ keyFinset b, Vec.getv a k * Vec.getv b k = 0 := by
    intro k hk
    by_cases hka : k ∈ keyFinset a
    · have hkb : k ∉ keyFinset b := Finset.disjoint_left.mp hd hka
      rw [show Vec.getv b k = 0 from getv_eq_zero_of_not_mem (by simpa [keyFinset] using hkb),
        mul_zero]
    · rw [getv_eq_zero_of_not_mem (by simpa [keyFinset] using hka), zero_mul]
  rw [Finset.sum_congr rfl hz]
  simp

/-- C9 (amended): the divergence formula, zero for identical centroids of
positive norm with equal sizes, and maximal at disjoint centroids among all
cluster pairs with the same sizes and non-negative centroids. -/
theorem divergenceScore_spec :
    (∀ g1 g2 : TabGroup, divergenceScore g1 g2 =
      (1 - cosine g1.centroid g2.centroid) *
      (0.5 + 0.5 * (min (g1.stats.size : ℝ) (g2.stats.size : ℝ) /
        max 1 (((g1.stats.size : ℝ) + (g2.stats.size : ℝ)) / 2))))
    ∧ (∀ g1 g2 : TabGroup, (jkeys g1.centroid).Nodup → sumSq g1.centroid ≠ 0 →
        g1.centroid = g2.centroid → g1.stats.size = g2.stats.size →
        divergenceScore g1 g2 = 0)
    ∧ (∀ g1 g2 : TabGroup, (jkeys g1.centroid).Nodup → (jkeys g2.centroid).Nodup →
        Disjoint (keyFinset g1.centroid) (keyFinset g2.centroid) →
        divergenceScore g1 g2 =
          0.5 + 0.5 * (min (g1.stats.size : ℝ) (g2.stats.size : ℝ) /
            max 1 (((g1.stats.size : ℝ) + (g2.stats.size : ℝ)) / 2))
        ∧ ∀ h1 h2 : TabGroup, (jkeys h1.centroid).Nodup → (jkeys h2.centroid).Nodup →
            VNonneg h1.centroid → VNonneg h2.centroid →
            h1.stats.size = g1.stats.size → h2.stats.size = g2.stats.size →
            divergenceScore h1 h2 ≤ divergenceScore g1 g2) := by
  have hform : ∀ g1 g2 : TabGroup, divergenceScore g1 g2 =
      (1 - cosine g1.centroid g2.centroid) *
      (0.5 + 0.5 * (min (g1.stats.size : ℝ) (g2.stats.size : ℝ) /
        max 1 (((g1.stats.size : ℝ) + (g2.stats.size : ℝ)) / 2))) := fun g1 g2 => rfl
  have hfac_nonneg : ∀ g1 g2 : TabGroup,
      0 ≤ 0.5 + 0.5 * (min (g1.stats.size : ℝ) (g2.stats.size : ℝ) /
        max 1 (((g1.stats.size : ℝ) + (g2.stats.size : ℝ)) / 2)) := by
    intro g1 g2
    have h1 : (0 : ℝ) ≤ min (g1.stats.size : ℝ) (g2.stats.size : ℝ) := by
      apply le_min <;> positivity
    have h2 : (0 : ℝ) < max 1 (((g1.stats.size : ℝ) + (g2.stats.size : ℝ)) / 2) :=
      lt_of_lt_of_le zero_lt_one (le_max_left _ _)
    positivity
  refine ⟨hform, fun g1 g2 hnd hS hc hs => ?_, fun g1 g2 h1 h2 hd => ⟨?_, ?_⟩⟩
  · rw [hform, ← hc, cosine_self g1.centroid hnd hS]
    ring
  · rw [hform, cosine_disjoint _ _ h1 h2 hd]
    ring
  · intro k1 k2 hk1 hk2 hn1 hn2 hs1 hs2
    rw [hform, hform, cosine_disjoint _ _ h1 h2 hd, hs1, hs2]
    have hcos01 : 0 ≤ cosine k1.centroid k2.centroid ∧ cosine k1.centroid k2.centroid ≤ 1 :=
      ⟨cosine_nonneg _ _ hk1 hk2 hn1 hn2, cosine_le_one _ _ hk1 hk2⟩
    nlinarith [hcos01.1, hcos01.2, hfac_nonneg g1 g2]

/-- C9 counterexample: two clusters with the same non-empty centroid (a single
zero weight) and equal sizes score divergence `1`, not `0`. -/
theorem divergenceScore_zero_weight_centroid :
    (TabGroup.mk "g" "" "" [1] [("a", (0 : ℝ))] ⟨1, 0⟩).centroid ≠ [] ∧
    divergenceScore (TabGroup.mk "g" "" "" [1] [("a", (0 : ℝ))] ⟨1, 0⟩)
      (TabGroup.mk "g" "" "" [1] [("a", (0 : ℝ))] ⟨1, 0⟩) = 1 ∧
    (1 : ℝ) ≠ 0 := by
  have hc : cosine [("a", (0 : ℝ))] [("a", (0 : ℝ))] = 0 := by
    have hs : sumSq [("a", (0 : ℝ))] = 0 := by
      simp [sumSq]
    rw [cosine_cases]
    rw [if_neg (by norm_num), if_pos (by rw [hs, Real.sqrt_zero, mul_zero])]
  refine ⟨by simp, ?_, by norm_num⟩
  show (1 - cosine [("a", (0 : ℝ))] [("a", (0 : ℝ))]) *
      (0.5 + 0.5 * (min ((1 : ℕ) : ℝ) ((1 : ℕ) : ℝ) /
        max 1 ((((1 : ℕ) : ℝ) + ((1 : ℕ) : ℝ)) / 2))) = 1
  rw [hc]
  norm_num

/-- Witness for C9 at concrete clusters. -/
theorem divergenceScore_spec_witness :
    ((jkeys ([("x", (1 : ℝ))] : Vec)).Nodup ∧ sumSq [("x", (1 : ℝ))] ≠ 0 ∧
      Disjoint (keyFinset [("x", (1 : ℝ))]) (keyFinset [("y", (2 : ℝ))])) ∧
    divergenceScore (TabGroup.mk "g1" "" "" [1] [("x", (1 : ℝ))] ⟨1, 0⟩)
      (TabGroup.mk "g2" "" "" [2] [("x", (1 : ℝ))] ⟨1, 0⟩) = 0 ∧
    divergenceScore (TabGroup.mk "g1" "" "" [1] [("x", (1 : ℝ))] ⟨1, 0⟩)
      (TabGroup.mk "g3" "" "" [2] [("y", (2 : ℝ))] ⟨1, 0⟩) =
      0.5 + 0.5 * (min ((1 : ℕ) : ℝ) ((1 : ℕ) : ℝ) / max 1 ((((1 : ℕ) : ℝ) + ((1 : ℕ) : ℝ)) / 2)) := by
  have hd : Disjoint (keyFinset [("x", (1 : ℝ))]) (keyFinset [("y", (2 : ℝ))]) := by
    rw [Finset.disjoint_left]
    intro k hk1 hk2
    simp [keyFinset, jkeys] at hk1 hk2
    rw [hk1] at hk2
    exact absurd hk2 (by decide)
  have hS : sumSq [("x", (1 : ℝ))] ≠ 0 := by
    simp [sumSq]
  refine ⟨⟨by decide, hS, hd⟩, ?_, ?_⟩
  · exact divergenceScore_spec.2.1 _ _ (by decide) hS rfl rfl
  · exact (divergenceScore_spec.2.2 _ _ (by decide) (by decide) hd).1

/-! ### topDivergence and the output ordering of clusterTabs -/

/-- C10: topDivergence on null or fewer than two groups yields a null pair and
score 0; otherwise it returns the first two groups and their divergence, and
those are the two largest because clusterTabs sorts by descending size. -/
theorem topDivergence_spec :
    topDivergence none = (none, 0)
    ∧ (∀ gs : List TabGroup, gs.length < 2 → topDivergence (some gs) = (none, 0))
    ∧ (∀ (g1 g2 : TabGroup) (rest : List TabGroup),
        topDivergence (some (g1 :: g2 :: rest)) = (some (g1, g2), divergenceScore g1 g2))
    ∧ (∀ tabs seeds opts now rands,
        ((clusterTabs tabs seeds opts now rands).1).Sorted bySizeDesc)
    ∧ (∀ tabs seeds opts now rands (g1 g2 : TabGroup) (rest : List TabGroup),
        (clusterTabs tabs seeds opts now rands).1 = g1 :: g2 :: rest →
        (∀ g ∈ (clusterTabs tabs seeds opts now rands).1, g.stats.size ≤ g1.stats.size) ∧
        (∀ g ∈ g2 :: rest, g.stats.size ≤ g2.stats.size)) := by
  have hsorted : ∀ tabs seeds opts now rands,
      ((clusterTabs tabs seeds opts now rands).1).Sorted bySizeDesc := by
    intro tabs seeds opts now rands
    exact List.sorted_insertionSort bySizeDesc _
  refine ⟨rfl, ?_, fun g1 g2 rest => rfl, hsorted, ?_⟩
  · intro gs h
    match gs with
    | [] => rfl
    | [g] => rfl
    | g1 :: g2 :: rest => simp at h; omega
  · intro tabs seeds opts now rands g1 g2 rest hout
    have hs := hsorted tabs seeds opts now rands
    rw [hout] at hs
    rw [List.sorted_cons] at hs
    obtain ⟨h1, hs2⟩ := hs
    rw [List.sorted_cons] at hs2
    obtain ⟨h2, _⟩ := hs2
    constructor
    · intro g hg
      rw [hout] at hg
      rcases List.mem_cons.mp hg with rfl | hg'
      · exact le_refl _
      · exact h1 g hg'
    · intro g hg
      rcases List.mem_cons.mp hg with rfl | hg'
      · exact le_refl _
      · exact h2 g hg'

/-- Witness for C10: the short-list cases at concrete inputs. -/
theorem topDivergence_spec_witness :
    ([] : List TabGroup).length < 2 ∧ topDivergence (some ([] : List TabGroup)) = (none, 0) :=
  ⟨by norm_num, topDivergence_spec.2.1 [] (by norm_num)⟩

/-! ### Semantic-clustering group validation (aiClusterTabsWithTitles) -/

theorem acceptLoop_cons_none (v : List ℕ) (m : ℕ) (r : RawAiGroup) (rest : List RawAiGroup)
    (c : ℕ) (h : r.tabIds = none) :
    acceptLoop v m (r :: rest) c = acceptLoop v m rest c := by
  rw [acceptLoop, h]

theorem acceptLoop_cons_empty (v : List ℕ) (m : ℕ) (r : RawAiGroup) (rest : List RawAiGroup)
    (c : ℕ) (ids : List ℕ) (h : r.tabIds = some ids)
    (hk : (ids.filter (fun i => v.contains i)).length = 0) :
    acceptLoop v m (r :: rest) c = acceptLoop v m rest c := by
  rw [acceptLoop, h]
  simp only [hk, if_pos]

theorem acceptLoop_cons_keep (v : List ℕ) (m : ℕ) (r : RawAiGroup) (rest : List RawAiGroup)
    (c : ℕ) (ids : List ℕ) (h : r.tabIds = some ids)
    (hk : ¬((ids.filter (fun i => v.contains i)).length = 0)) :
    acceptLoop v m (r :: rest) c =
      (if m ≤ c + 1 then
        [{ label := if strTake r.label 24 = "" then "Group" else strTake r.label 24,
           summary := strTake r.summary 120,
           tabIds := ids.filter (fun i => v.contains i) }]
      else
        { label := if strTake r.label 24 = "" then "Group" else strTake r.label 24,
          summary := strTake r.summary 120,
          tabIds := ids.filter (fun i => v.contains i) } :: acceptLoop v m rest (c + 1)) := by
  rw [acceptLoop, h]
  simp only [hk, if_neg, ite_false]

theorem acceptLoop_mem_valid (validIds : List ℕ) (maxGroups : ℕ) :
    ∀ (raws : List RawAiGroup) (count : ℕ),
      ∀ g ∈ acceptLoop validIds maxGroups raws count,
        g.tabIds ≠ [] ∧ ∀ i ∈ g.tabIds, i ∈ validIds := by
  intro raws
  induction raws with
  | nil => intro count g hg; simp [acceptLoop] at hg
  | cons r rest ih =>
    intro count g hg
    have hgood : ∀ h : AiGroup,
        h = { label := if strTake r.label 24 = "" then "Group" else strTake r.label 24,
              summary := strTake r.summary 120,
              tabIds := (r.tabIds.getD []).filter (fun i => validIds.contains i) } →
        h.tabIds ≠ [] →
        h.tabIds ≠ [] ∧ ∀ i ∈ h.tabIds, i ∈ validIds := by
      intro h hh hne
      subst hh
      refine ⟨hne, fun i hi => ?_⟩
      have := List.of_mem_filter hi
      simpa [List.contains, List.elem_iff] using this
    rcases hr : r.tabIds with _ | ids
    · rw [acceptLoop_cons_none _ _ _ _ _ hr] at hg
      exact ih count g hg
    · by_cases hkept : (ids.filter (fun i => validIds.contains i)).length = 0
      · rw [acceptLoop_cons_empty _ _ _ _ _ _ hr hkept] at hg
        exact ih count g hg
      · rw [acceptLoop_cons_keep _ _ _ _ _ _ hr hkept] at hg
        have hne : (ids.filter (fun i => validIds.contains i)) ≠ [] := by
          intro he
          rw [he] at hkept
          exact hkept rfl
        by_cases hbreak : maxGroups ≤ count + 1
        · rw [if_pos hbreak] at hg
          rcases List.mem_singleton.mp hg with rfl
          exact hgood _ (by rw [hr]; rfl) hne
        · rw [if_neg hbreak] at hg
          rcases List.mem_cons.mp hg with rfl | hg2
          · exact hgood _ (by rw [hr]; rfl) hne
          · exact ih (count + 1) g hg2

theorem acceptLoop_eq_take (validIds : List ℕ) (maxGroups : ℕ) :
    ∀ (raws : List RawAiGroup) (count : ℕ), count < maxGroups →
      acceptLoop validIds maxGroups raws count =
        (raws.filterMap (specAcceptFilter validIds)).take (maxGroups - count) := by
  intro raws
  induction raws with
  | nil => intro count _; simp [acceptLoop]
  | cons r rest ih =>
    intro count hcount
    rcases hr : r.tabIds with _ | ids
    · rw [acceptLoop_cons_none _ _ _ _ _ hr, List.filterMap_cons]
      have hnone : specAcceptFilter validIds r = none := by
        unfold specAcceptFilter
        rw [hr]
      rw [hnone, ih count hcount]
    · by_cases hkept : (ids.filter (fun i => validIds.contains i)).length = 0
      · rw [acceptLoop_cons_empty _ _ _ _ _ _ hr hkept, List.filterMap_cons]
        have hnone : specAcceptFilter validIds r = none := by
          unfold specAcceptFilter
          rw [hr]
          simp only [hkept, if_pos]
        rw [hnone, ih count hcount]
      · rw [acceptLoop_cons_keep _ _ _ _ _ _ hr hkept, List.filterMap_cons]
        have hsome : specAcceptFilter validIds r =
            some { label := if strTake r.label 24 = "" then "Group" else strTake r.label 24,
                   summary := strTake r.summary 120,
                   tabIds := ids.filter (fun i => validIds.contains i) } := by
          unfold specAcceptFilter
          rw [hr]
          simp only [hkept, if_neg, ite_false]
        rw [hsome]
        by_cases hbreak : maxGroups ≤ count + 1
        · have h1 : maxGroups - count = 1 := by omega
          rw [if_pos hbreak, h1]
          simp
        · have h1 : maxGroups - count = (maxGroups - (count + 1)) + 1 := by omega
          rw [if_neg hbreak, h1, List.take_succ_cons, ih (count + 1) (by omega)]

/-- C8 (amended): accepted groups never reference a tab id outside the payload
(the first 60 tabs of the batch); a reply group is not discarded merely for
containing an invalid id — its invalid ids are filtered out, and it is dropped
only when malformed or left without any valid id (or beyond maxGroups). -/
theorem acceptGroups_validation (tabsMeta : List TabMeta) (maxGroups : ℕ)
    (raws : List RawAiGroup) (hm : 1 ≤ maxGroups) :
    (∀ g ∈ acceptGroups tabsMeta maxGroups raws,
      g.tabIds ≠ [] ∧ ∀ i ∈ g.tabIds,
        i ∈ (tabsMeta.take 60).map TabMeta.id ∧ i ∈ tabsMeta.map TabMeta.id)
    ∧ acceptGroups tabsMeta maxGroups raws =
      (raws.filterMap (specAcceptFilter ((tabsMeta.take 60).map TabMeta.id))).take maxGroups := by
  constructor
  · intro g hg
    have h := acceptLoop_mem_valid ((tabsMeta.take 60).map TabMeta.id) maxGroups raws 0 g hg
    refine ⟨h.1, fun i hi => ⟨h.2 i hi, ?_⟩⟩
    have h60 := h.2 i hi
    obtain ⟨t, ht, rfl⟩ := List.mem_map.mp h60
    exact List.mem_map_of_mem TabMeta.id (List.mem_of_mem_take ht)
  · have := acceptLoop_eq_take ((tabsMeta.take 60).map TabMeta.id) maxGroups raws 0
      (by omega)
    simpa [acceptGroups] using this

/-- C8 counterexample: a reply group referencing the out-of-batch id 2 is not
discarded; it is kept with the invalid id filtered out. -/
theorem acceptGroups_keeps_partially_invalid :
    acceptGroups [TabMeta.mk 1 "t" "" []] 6 [RawAiGroup.mk "L" "S" (some [1, 2])] =
      [AiGroup.mk "L" "S" [1]] ∧
    (2 : ℕ) ∉ ([TabMeta.mk 1 "t" "" []] : List TabMeta).map TabMeta.id ∧
    acceptGroups [TabMeta.mk 1 "t" "" []] 6 [RawAiGroup.mk "L" "S" (some [1, 2])] ≠ [] := by
  refine ⟨by decide, by decide, by decide⟩

/-- Witness for C8 at a concrete batch and reply. -/
theorem acceptGroups_validation_witness :
    (1 : ℕ) ≤ 6 ∧
    ((∀ g ∈ acceptGroups [TabMeta.mk 1 "t" "" []] 6 [RawAiGroup.mk "L" "S" (some [1, 2])],
      g.tabIds ≠ [] ∧ ∀ i ∈ g.tabIds,
        i ∈ (([TabMeta.mk 1 "t" "" []] : List TabMeta).take 60).map TabMeta.id ∧
        i ∈ ([TabMeta.mk 1 "t" "" []] : List TabMeta).map TabMeta.id)
    ∧ acceptGroups [TabMeta.mk 1 "t" "" []] 6 [RawAiGroup.mk "L" "S" (some [1, 2])] =
      ([RawAiGroup.mk "L" "S" (some [1, 2])].filterMap
        (specAcceptFilter ((([TabMeta.mk 1 "t" "" []] : List TabMeta).take 60).map
          TabMeta.id))).take 6) :=
  ⟨by decide, acceptGroups_validation [TabMeta.mk 1 "t" "" []] 6
    [RawAiGroup.mk "L" "S" (some [1, 2])] (by decide)⟩

/-! ### The best-score scan of clusterTabs -/

theorem enumFrom_cons' {α : Type} (n : ℕ) (a : α) (l : List α) :
    List.enumFrom n (a :: l) = (n, a) :: List.enumFrom (n + 1) l := rfl

/-- Characterization of the best-score scan: either no group beats the initial
score and the state is unchanged, or the scan lands on the first group
achieving the maximal score, which strictly beats the initial score. -/
theorem bestScan_spec (fv : TabFeatures) :
    ∀ (gs : List TabGroup) (n : ℕ) (st0 : Option ℕ × ℝ),
      (List.foldl (bestStep fv) st0 (List.enumFrom n gs) = st0 ∧
        ∀ g ∈ gs, stepScore fv g ≤ st0.2)
      ∨ (∃ i, i < gs.length ∧
          List.foldl (bestStep fv) st0 (List.enumFrom n gs) =
            (some (n + i), stepScore fv (gs.getD i default)) ∧
          st0.2 < stepScore fv (gs.getD i default) ∧
          (∀ g ∈ gs, stepScore fv g ≤ stepScore fv (gs.getD i default)) ∧
          (∀ j, j < i → stepScore fv (gs.getD j default) < stepScore fv (gs.getD i default))) := by
  intro gs
  induction gs with
  | nil =>
    intro n st0
    left
    exact ⟨rfl, by simp⟩
  | cons g rest ih =>
    intro n st0
    rw [enumFrom_cons', List.foldl_cons]
    by_cases hup : st0.2 < stepScore fv g
    · have hstep : bestStep fv st0 (n, g) = (some n, stepScore fv g) := by
        unfold bestStep
        rw [if_pos hup]
      rw [hstep]
      rcases ih (n + 1) (some n, stepScore fv g) with ⟨heq, hle⟩ | ⟨i, hi, heq, hlt, hmax, hfirst⟩
      · right
        refine ⟨0, by simp, ?_, ?_, ?_, ?_⟩
        · rw [heq]
          simp
        · simpa using hup
        · intro g' hg'
          rcases List.mem_cons.mp hg' with rfl | hg2
          · simp
          · simpa using hle g' hg2
        · intro j hj
          omega
      · right
        refine ⟨i + 1, by simpa using Nat.succ_lt_succ hi, ?_, ?_, ?_, ?_⟩
        · rw [heq]
          have : n + 1 + i = n + (i + 1) := by omega
          rw [this]
          simp
        · calc st0.2 < stepScore fv g := hup
            _ < stepScore fv (rest.getD i default) := by simpa using hlt
            _ = stepScore fv ((g :: rest).getD (i + 1) default) := by simp
        · intro g' hg'
          rcases List.mem_cons.mp hg' with rfl | hg2
          · have := hlt
            simp at this ⊢
            exact le_of_lt this
          · have := hmax g' hg2
            simpa using this
        · intro j hj
          match j with
          | 0 =>
            have := hlt
            simp at this ⊢
            exact this
          | j' + 1 =>
            have hj' : j' < i := by omega
            have := hfirst j' hj'
            simpa using this
    · have hstep : bestStep fv st0 (n, g) = st0 := by
        unfold bestStep
        rw [if_neg hup]
      rw [hstep]
      rcases ih (n + 1) st0 with ⟨heq, hle⟩ | ⟨i, hi, heq, hlt, hmax, hfirst⟩
      · left
        refine ⟨heq, ?_⟩
        intro g' hg'
        rcases List.mem_cons.mp hg' with rfl | hg2
        · exact le_of_not_lt hup
        · exact hle g' hg2
      · right
        refine ⟨i + 1, by simpa using Nat.succ_lt_succ hi, ?_, ?_, ?_, ?_⟩
        · rw [heq]
          have : n + 1 + i = n + (i + 1) := by omega
          rw [this]
          simp
        · simpa using hlt
        · intro g' hg'
          rcases List.mem_cons.mp hg' with rfl | hg2
          · have h1 : stepScore fv g' ≤ st0.2 := le_of_not_lt hup
            have h2 := hlt
            simp at h2 ⊢
            linarith
          · have := hmax g' hg2
            simpa using this
        · intro j hj
          match j with
          | 0 =>
            have h1 : stepScore fv g ≤ st0.2 := le_of_not_lt hup
            have h2 := hlt
            simp at h2 ⊢
            linarith
          | j' + 1 =>
            have hj' : j' < i := by omega
            have := hfirst j' hj'
            simpa using this

theorem getD_mem {α : Type} [Inhabited α] :
    ∀ (l : List α) (i : ℕ), i < l.length → l.getD i default ∈ l := by
  intro l
  induction l with
  | nil => intro i h; simp at h
  | cons a rest ih =>
    intro i h
    match i with
    | 0 => simp
    | i' + 1 =>
      have : i' < rest.length := by simpa using Nat.lt_of_succ_lt_succ h
      simpa using Or.inr (ih i' this)

theorem get?_eq_getD {α : Type} [Inhabited α] :
    ∀ (l : List α) (i : ℕ), i < l.length → l.get? i = some (l.getD i default) := by
  intro l
  induction l with
  | nil => intro i h; simp at h
  | cons a rest ih =>
    intro i h
    match i with
    | 0 => simp
    | i' + 1 =>
      have : i' < rest.length := by simpa using Nat.lt_of_succ_lt_succ h
      simpa using ih i' this

theorem findBest_cases (fv : TabFeatures) (init : ℝ) (gs : List TabGroup) :
    (findBest fv init gs = (none, init) ∧ ∀ g ∈ gs, stepScore fv g ≤ init)
    ∨ (∃ i, i < gs.length ∧
        findBest fv init gs = (some i, stepScore fv (gs.getD i default)) ∧
        init < stepScore fv (gs.getD i default) ∧
        (∀ g ∈ gs, stepScore fv g ≤ stepScore fv (gs.getD i default)) ∧
        (∀ j, j < i → stepScore fv (gs.getD j default) < stepScore fv (gs.getD i default))) := by
  have henum : gs.enum = List.enumFrom 0 gs := rfl
  unfold findBest
  rw [henum]
  rcases bestScan_spec fv gs 0 (none, init) with ⟨heq, hle⟩ | ⟨i, hi, heq, hlt, hmax, hfirst⟩
  · left
    exact ⟨heq, hle⟩
  · right
    refine ⟨i, hi, ?_, by simpa using hlt, hmax, hfirst⟩
    rw [heq]
    simp

/-- The score expression as written in the specification. -/
theorem stepScore_eq (fv : TabFeatures) (g : TabGroup) :
    stepScore fv g = cosine fv.vec g.centroid +
      (if fv.host ≠ "" ∧ 2 ≤ g.stats.size ∧ jhas g.centroid (hostToken fv.host)
       then HOST_BONUS else 0) := by
  unfold stepScore
  by_cases h1 : fv.host ≠ "" ∧ 2 ≤ g.stats.size
  · by_cases h2 : jhas g.centroid (hostToken fv.host)
    · rw [if_pos h1, if_pos h2, if_pos ⟨h1.1, h1.2, h2⟩]
    · rw [if_pos h1, if_neg h2, if_neg (fun hh => h2 hh.2.2), add_zero]
  · rw [if_neg h1, if_neg (fun hh => h1 ⟨hh.1, hh.2.1⟩), add_zero]

/-- C2: a tab joins the first existing group attaining the maximal score — the
cosine against the group centroid plus the host bonus exactly when the tab has
a host, the group has at least two members and the centroid holds the host
pseudo-token — precisely when that score strictly exceeds
`threshold - NEW_GROUP_PENALTY`; otherwise a fresh singleton group carrying the
tab's own vector and a freshly generated id is appended. -/
theorem assignOne_greedy (threshold : ℝ) (now : ℕ) (rands : ℕ → String)
    (st : ClusterState) (t : TabMeta) (fv : TabFeatures) :
    ((∀ g ∈ st.groups, cosine fv.vec g.centroid +
        (if fv.host ≠ "" ∧ 2 ≤ g.stats.size ∧ jhas g.centroid (hostToken fv.host)
         then HOST_BONUS else 0) ≤ threshold - NEW_GROUP_PENALTY) →
      assignOne threshold now rands st t fv =
        { groups := st.groups ++
            [{ id := groupIdFrom fv.allTokens (rands st.fresh),
               label := "", summary := "", tabIds := [t.id], centroid := fv.vec,
               stats := { size := 1, lastUpdated := now } }],
          assignments := jset st.assignments t.id (groupIdFrom fv.allTokens (rands st.fresh)),
          fresh := st.fresh + 1 })
    ∧ ((∃ g ∈ st.groups, threshold - NEW_GROUP_PENALTY < cosine fv.vec g.centroid +
        (if fv.host ≠ "" ∧ 2 ≤ g.stats.size ∧ jhas g.centroid (hostToken fv.host)
         then HOST_BONUS else 0)) →
      ∃ i, i < st.groups.length ∧
        (∀ g ∈ st.groups, cosine fv.vec g.centroid +
          (if fv.host ≠ "" ∧ 2 ≤ g.stats.size ∧ jhas g.centroid (hostToken fv.host)
           then HOST_BONUS else 0) ≤ stepScore fv (st.groups.getD i default)) ∧
        (∀ j, j < i → stepScore fv (st.groups.getD j default) <
          stepScore fv (st.groups.getD i default)) ∧
        threshold - NEW_GROUP_PENALTY < stepScore fv (st.groups.getD i default) ∧
        assignOne threshold now rands st t fv =
          { groups := updateAt st.groups i (fun _ =>
              { id := (st.groups.getD i default).id,
                label := (st.groups.getD i default).label,
                summary := (st.groups.getD i default).summary,
                tabIds := (st.groups.getD i default).tabIds ++ [t.id],
                centroid := mergeCentroid (st.groups.getD i default).centroid fv.vec
                  (st.groups.getD i default).stats.size,
                stats := { size := (st.groups.getD i default).stats.size + 1,
                           lastUpdated := now } }),
            assignments := jset st.assignments t.id (st.groups.getD i default).id,
            fresh := st.fresh }) := by
  constructor
  · intro hall
    rcases findBest_cases fv (threshold - NEW_GROUP_PENALTY) st.groups with
      ⟨heq, _⟩ | ⟨i, hi, _, hlt, _, _⟩
    · unfold assignOne
      rw [heq]
    · exfalso
      have h1 := hall (st.groups.getD i default) (getD_mem st.groups i hi)
      rw [← stepScore_eq] at h1
      linarith
  · intro hex
    obtain ⟨g0, hg0, hgt⟩ := hex
    rcases findBest_cases fv (threshold - NEW_GROUP_PENALTY) st.groups with
      ⟨_, hall⟩ | ⟨i, hi, heq, hlt, hmax, hfirst⟩
    · exfalso
      have h1 := hall g0 hg0
      rw [stepScore_eq] at h1
      linarith
    · refine ⟨i, hi, ?_, hfirst, hlt, ?_⟩
      · intro g hg
        rw [← stepScore_eq]
        exact hmax g hg
      · unfold assignOne
        rw [heq]
        simp only []
        rw [get?_eq_getD st.groups i hi]

/-- Witness for C2: with no existing groups every score bound is vacuous and
the tab starts a new singleton group. -/
theorem assignOne_greedy_witness :
    (∀ g ∈ (ClusterState.mk [] [] 0).groups,
      cosine (TabFeatures.mk [] "" []).vec g.centroid +
        (if (TabFeatures.mk [] "" []).host ≠ "" ∧ 2 ≤ g.stats.size ∧
            jhas g.centroid (hostToken (TabFeatures.mk [] "" []).host)
         then HOST_BONUS else 0) ≤ (0.6 : ℝ) - NEW_GROUP_PENALTY) ∧
    assignOne 0.6 0 (fun _ => "r") (ClusterState.mk [] [] 0) (TabMeta.mk 1 "a" "" [])
      (TabFeatures.mk [] "" []) =
      { groups := (ClusterState.mk [] [] 0).groups ++
          [{ id := groupIdFrom (TabFeatures.mk [] "" []).allTokens ((fun _ : ℕ => "r") 0),
             label := "", summary := "",
             tabIds := [(TabMeta.mk 1 "a" "" []).id],
             centroid := (TabFeatures.mk [] "" []).vec,
             stats := { size := 1, lastUpdated := 0 } }],
        assignments := jset (ClusterState.mk [] [] 0).assignments (TabMeta.mk 1 "a" "" []).id
          (groupIdFrom (TabFeatures.mk [] "" []).allTokens ((fun _ : ℕ => "r") 0)),
        fresh := (ClusterState.mk [] [] 0).fresh + 1 } :=
  ⟨by simp, (assignOne_greedy 0.6 0 (fun _ => "r") (ClusterState.mk [] [] 0)
    (TabMeta.mk 1 "a" "" []) (TabFeatures.mk [] "" [])).1 (by simp)⟩

/-! ### The partition invariant of clusterTabs -/

theorem mem_updateAt_const {α : Type} :
    ∀ (l : List α) (j : ℕ) (g2 : α), ∀ g ∈ updateAt l j (fun _ => g2), g ∈ l ∨ g = g2 := by
  intro l
  induction l with
  | nil => intro j g2 g hg; simp [updateAt] at hg
  | cons a rest ih =>
    intro j g2 g hg
    match j with
    | 0 =>
      rcases List.mem_cons.mp hg with rfl | hg2
      · right; rfl
      · left; exact List.mem_cons_of_mem _ hg2
    | j' + 1 =>
      rcases List.mem_cons.mp hg with rfl | hg2
      · left; exact List.mem_cons_self _ _
      · rcases ih j' g2 g hg2 with h | h
        · left; exact List.mem_cons_of_mem _ h
        · right; exact h

theorem flatMap_updateAt_perm :
    ∀ (l : List TabGroup) (j : ℕ), j < l.length → ∀ (g2 : TabGroup) (x : ℕ),
      g2.tabIds = (l.getD j default).tabIds ++ [x] →
      ((updateAt l j (fun _ => g2)).flatMap TabGroup.tabIds).Perm
        ((l.flatMap TabGroup.tabIds) ++ [x]) := by
  intro l
  induction l with
  | nil => intro j hj; simp at hj
  | cons a rest ih =>
    intro j hj g2 x hg2
    match j with
    | 0 =>
      simp only [List.getD_cons_zero] at hg2
      simp only [updateAt, List.flatMap_cons]
      rw [hg2, List.append_assoc, List.append_assoc]
      exact List.Perm.append_left a.tabIds List.perm_append_comm
    | j' + 1 =>
      simp only [List.getD_cons_succ] at hg2
      have hj' : j' < rest.length := by simpa using Nat.lt_of_succ_lt_succ hj
      simp only [updateAt, List.flatMap_cons]
      rw [List.append_assoc]
      exact List.Perm.append_left a.tabIds (ih j' hj' g2 x hg2)

theorem assign_fold_invariant (threshold : ℝ) (now : ℕ) (rands : ℕ → String)
    (fvOf : TabMeta → TabFeatures) :
    ∀ (tabs : List TabMeta) (st : ClusterState) (done : List ℕ),
      (st.groups.flatMap TabGroup.tabIds).Perm done →
      (∀ g ∈ st.groups, ∀ i ∈ g.tabIds, jlookup st.assignments i = some g.id) →
      (∀ t ∈ tabs, t.id ∉ done) →
      (tabs.map TabMeta.id).Nodup →
      ((tabs.foldl (fun st t => assignOne threshold now rands st t (fvOf t)) st).groups.flatMap
        TabGroup.tabIds).Perm (done ++ tabs.map TabMeta.id) ∧
      (∀ g ∈ (tabs.foldl (fun st t => assignOne threshold now rands st t (fvOf t)) st).groups,
        ∀ i ∈ g.tabIds,
          jlookup (tabs.foldl (fun st t =>
            assignOne threshold now rands st t (fvOf t)) st).assignments i = some g.id) := by
  intro tabs
  induction tabs with
  | nil =>
    intro st done hperm hasg _ _
    simpa using ⟨hperm, hasg⟩
  | cons t rest ih =>
    intro st done hperm hasg hfresh hnd
    rw [List.foldl_cons]
    have htid_not_flat : t.id ∉ st.groups.flatMap TabGroup.tabIds := by
      intro hmem
      exact hfresh t (List.mem_cons_self _ _) (hperm.mem_iff.mp hmem)
    have hstep : ((assignOne threshold now rands st t (fvOf t)).groups.flatMap
          TabGroup.tabIds).Perm (done ++ [t.id]) ∧
        (∀ g ∈ (assignOne threshold now rands st t (fvOf t)).groups, ∀ i ∈ g.tabIds,
          jlookup (assignOne threshold now rands st t (fvOf t)).assignments i = some g.id) := by
      rcases findBest_cases (fvOf t) (threshold - NEW_GROUP_PENALTY) st.groups with
        ⟨heq, _⟩ | ⟨i, hi, heq, _, _, _⟩
      · have hform : assignOne threshold now rands st t (fvOf t) =
            { groups := st.groups ++
                [{ id := groupIdFrom (fvOf t).allTokens (rands st.fresh),
                   label := "", summary := "", tabIds := [t.id], centroid := (fvOf t).vec,
                   stats := { size := 1, lastUpdated := now } }],
              assignments := jset st.assignments t.id
                (groupIdFrom (fvOf t).allTokens (rands st.fresh)),
              fresh := st.fresh + 1 } := by
          unfold assignOne
          rw [heq]
        rw [hform]
        constructor
        · simp only [List.flatMap_append, List.flatMap_cons, List.flatMap_nil, List.append_nil]
          exact List.Perm.append hperm (List.Perm.refl [t.id])
        · intro g hg i hi
          rcases List.mem_append.mp hg with hg1 | hg2
          · have hidne : ¬(i = t.id) := by
              intro hh
              subst hh
              exact htid_not_flat (List.mem_flatMap.mpr ⟨g, hg1, hi⟩)
            rw [jlookup_jset, if_neg hidne]
            exact hasg g hg1 i hi
          · rcases List.mem_singleton.mp hg2 with rfl
            simp only [List.mem_singleton] at hi
            subst hi
            rw [jlookup_jset, if_pos rfl]
      · have hform : assignOne threshold now rands st t (fvOf t) =
            { groups := updateAt st.groups i (fun _ =>
                { id := (st.groups.getD i default).id,
                  label := (st.groups.getD i default).label,
                  summary := (st.groups.getD i default).summary,
                  tabIds := (st.groups.getD i default).tabIds ++ [t.id],
                  centroid := mergeCentroid (st.groups.getD i default).centroid (fvOf t).vec
                    (st.groups.getD i default).stats.size,
                  stats := { size := (st.groups.getD i default).stats.size + 1,
                             lastUpdated := now } }),
              assignments := jset st.assignments t.id (st.groups.getD i default).id,
              fresh := st.fresh } := by
          unfold assignOne
          rw [heq]
          simp only []
          rw [get?_eq_getD st.groups i hi]
        rw [hform]
        constructor
        · exact List.Perm.trans
            (flatMap_updateAt_perm st.groups i hi _ t.id rfl)
            (List.Perm.append hperm (List.Perm.refl [t.id]))
        · intro g hg i2 hi2
          rcases mem_updateAt_const st.groups i _ g hg with hg1 | hg2
          · have hidne : ¬(i2 = t.id) := by
              intro hh
              subst hh
              exact htid_not_flat (List.mem_flatMap.mpr ⟨g, hg1, hi2⟩)
            rw [jlookup_jset, if_neg hidne]
            exact hasg g hg1 i2 hi2
          · subst hg2
            simp only [List.mem_append, List.mem_singleton] at hi2
            rcases hi2 with hold | rfl
            · have hidne : ¬(i2 = t.id) := by
                intro hh
                subst hh
                exact htid_not_flat (List.mem_flatMap.mpr
                  ⟨st.groups.getD i default, getD_mem st.groups i hi, hold⟩)
              rw [jlookup_jset, if_neg hidne]
              exact hasg (st.groups.getD i default) (getD_mem st.groups i hi) i2 hold
            · rw [jlookup_jset, if_pos rfl]
    rw [List.map_cons, List.nodup_cons] at hnd
    have hrest := ih (assignOne threshold now rands st t (fvOf t)) (done ++ [t.id])
      hstep.1 hstep.2
      (by
        intro t' ht' hmem
        rcases List.mem_append.mp hmem with h1 | h2
        · exact hfresh t' (List.mem_cons_of_mem _ ht') h1
        · rcases List.mem_singleton.mp h2 with heq2
          exact hnd.1 (heq2 ▸ List.mem_map_of_mem TabMeta.id ht'))
      hnd.2
    refine ⟨?_, hrest.2⟩
    have := hrest.1
    rw [List.append_assoc] at this
    simpa using this

theorem clusterTabs_eq (tabs : List TabMeta) (prev : List TabGroup) (opts : ClusterOptions)
    (now : ℕ) (rands : ℕ → String) :
    clusterTabs tabs prev opts now rands =
      (((tabs.foldl (fun st t => assignOne opts.threshold now rands st t
          ((jlookup (tabs.foldl (fun m t => jset m t.id (tabVector t)) []) t.id).getD
            (TabFeatures.mk [] "" [])))
          (ClusterState.mk (prev.map (cloneSeed now)) [] 0)).groups.filter
            (fun g => decide (0 < g.tabIds.length))).insertionSort bySizeDesc,
       (tabs.foldl (fun st t => assignOne opts.threshold now rands st t
          ((jlookup (tabs.foldl (fun m t => jset m t.id (tabVector t)) []) t.id).getD
            (TabFeatures.mk [] "" [])))
          (ClusterState.mk (prev.map (cloneSeed now)) [] 0)).assignments) := rfl

theorem flatMap_clone_nil (now : ℕ) : ∀ prev : List TabGroup,
    ((prev.map (cloneSeed now)).flatMap TabGroup.tabIds) = [] := by
  intro prev
  induction prev with
  | nil => rfl
  | cons g rest ih => simpa [cloneSeed] using ih

theorem flatMap_filter_nonempty : ∀ l : List TabGroup,
    ((l.filter (fun g => decide (0 < g.tabIds.length))).flatMap TabGroup.tabIds) =
      l.flatMap TabGroup.tabIds := by
  intro l
  induction l with
  | nil => rfl
  | cons g rest ih =>
    by_cases h : 0 < g.tabIds.length
    · simp [List.filter_cons, h, ih]
    · have hnil : g.tabIds = [] := List.length_eq_zero.mp (by omega)
      simp [List.filter_cons, hnil, ih]

theorem count_flatMap_eq (i : ℕ) : ∀ l : List TabGroup,
    (l.flatMap TabGroup.tabIds).count i = (l.map (fun g => g.tabIds.count i)).sum := by
  intro l
  induction l with
  | nil => rfl
  | cons g rest ih =>
    simp only [List.flatMap_cons, List.count_append, List.map_cons, List.sum_cons, ih]

theorem countP_of_count_sum_one (i : ℕ) : ∀ l : List TabGroup,
    (l.map (fun g => g.tabIds.count i)).sum = 1 →
    l.countP (fun g => decide (i ∈ g.tabIds)) = 1 := by
  intro l
  induction l with
  | nil => intro h; simp at h
  | cons g rest ih =>
    intro h
    simp only [List.map_cons, List.sum_cons] at h
    rw [List.countP_cons]
    by_cases hg : i ∈ g.tabIds
    · have hc : 0 < g.tabIds.count i := List.count_pos_iff_mem.mpr hg
      have hc1 : g.tabIds.count i = 1 := by omega
      have hs0 : (rest.map (fun g => g.tabIds.count i)).sum = 0 := by omega
      have hrest0 : rest.countP (fun g => decide (i ∈ g.tabIds)) = 0 := by
        rw [List.countP_eq_zero]
        intro g' hg'
        have : g'.tabIds.count i = 0 := by
          have hall := List.sum_eq_zero_iff.mp hs0
          exact hall _ (List.mem_map_of_mem (fun g => g.tabIds.count i) hg')
        simp [List.count_eq_zero.mp this]
      simp [hrest0, hg]
    · have hc0 : g.tabIds.count i = 0 := List.count_eq_zero.mpr hg
      rw [hc0, zero_add] at h
      simp [hg, ih h]

/-- C1: for every batch with distinct tab ids and any seed set, the output of
clusterTabs is a partition of the batch: the concatenation of all `tabIds` is
a permutation of the input ids, every input id lies in exactly one output
group, no output group is empty, and the assignments map sends every member
of a group to that group's id. -/
theorem clusterTabs_partition (tabs : List TabMeta) (seeds : List TabGroup)
    (opts : ClusterOptions) (now : ℕ) (rands : ℕ → String)
    (hnd : (tabs.map TabMeta.id).Nodup) :
    (((clusterTabs tabs seeds opts now rands).1.flatMap TabGroup.tabIds).Perm
      (tabs.map TabMeta.id))
    ∧ (∀ i ∈ tabs.map TabMeta.id,
        ((clusterTabs tabs seeds opts now rands).1.countP
          (fun g => decide (i ∈ g.tabIds))) = 1)
    ∧ (∀ g ∈ (clusterTabs tabs seeds opts now rands).1, g.tabIds ≠ [])
    ∧ (∀ g ∈ (clusterTabs tabs seeds opts now rands).1, ∀ i ∈ g.tabIds,
        jlookup (clusterTabs tabs seeds opts now rands).2 i = some g.id) := by
  have hinv := assign_fold_invariant opts.threshold now rands
    (fun t => ((jlookup (tabs.foldl (fun m t => jset m t.id (tabVector t)) []) t.id).getD
      (TabFeatures.mk [] "" [])))
    tabs (ClusterState.mk (seeds.map (cloneSeed now)) [] 0) []
    (by rw [flatMap_clone_nil])
    (by
      intro g hg i hi
      obtain ⟨g0, _, rfl⟩ := List.mem_map.mp hg
      simp [cloneSeed] at hi)
    (by intro t _ h; simp at h)
    hnd
  rw [List.nil_append] at hinv
  rw [clusterTabs_eq]
  have hfiltperm : ((((tabs.foldl (fun st t => assignOne opts.threshold now rands st t
        ((jlookup (tabs.foldl (fun m t => jset m t.id (tabVector t)) []) t.id).getD
          (TabFeatures.mk [] "" [])))
        (ClusterState.mk (seeds.map (cloneSeed now)) [] 0)).groups.filter
          (fun g => decide (0 < g.tabIds.length))).insertionSort bySizeDesc).flatMap
        TabGroup.tabIds).Perm (tabs.map TabMeta.id) := by
    refine List.Perm.trans (List.Perm.flatMap_right TabGroup.tabIds
      (List.perm_insertionSort bySizeDesc _)) ?_
    rw [flatMap_filter_nonempty]
    exact hinv.1
  refine ⟨hfiltperm, ?_, ?_, ?_⟩
  · intro i hi
    have hcount1 : (tabs.map TabMeta.id).count i = 1 := by
      have hle := List.nodup_iff_count_le_one.mp hnd i
      have hpos := List.count_pos_iff_mem.mpr hi
      omega
    have hflat : ((((tabs.foldl (fun st t => assignOne opts.threshold now rands st t
        ((jlookup (tabs.foldl (fun m t => jset m t.id (tabVector t)) []) t.id).getD
          (TabFeatures.mk [] "" [])))
        (ClusterState.mk (seeds.map (cloneSeed now)) [] 0)).groups.filter
          (fun g => decide (0 < g.tabIds.length))).insertionSort bySizeDesc).flatMap
        TabGroup.tabIds).count i = 1 := by
      rw [hfiltperm.count_eq]
      exact hcount1
    rw [count_flatMap_eq] at hflat
    exact countP_of_count_sum_one i _ hflat
  · intro g hg
    have hg2 := (List.perm_insertionSort bySizeDesc _).subset hg
    have := List.of_mem_filter hg2
    intro hnil
    rw [hnil] at this
    simp at this
  · intro g hg i hi
    have hg2 := (List.perm_insertionSort bySizeDesc _).subset hg
    have hg3 := List.mem_of_mem_filter hg2
    exact hinv.2 g hg3 i hi

/-- Witness for C1 at a concrete two-tab batch. -/
theorem clusterTabs_partition_witness :
    (([TabMeta.mk 1 "alpha" "" [], TabMeta.mk 2 "beta" "" []].map TabMeta.id).Nodup) ∧
    ((((clusterTabs [TabMeta.mk 1 "alpha" "" [], TabMeta.mk 2 "beta" "" []] []
        (ClusterOptions.mk none) 0 (fun _ => "r")).1.flatMap TabGroup.tabIds).Perm
      ([TabMeta.mk 1 "alpha" "" [], TabMeta.mk 2 "beta" "" []].map TabMeta.id))
    ∧ (∀ i ∈ [TabMeta.mk 1 "alpha" "" [], TabMeta.mk 2 "beta" "" []].map TabMeta.id,
        ((clusterTabs [TabMeta.mk 1 "alpha" "" [], TabMeta.mk 2 "beta" "" []] []
          (ClusterOptions.mk none) 0 (fun _ => "r")).1.countP
          (fun g => decide (i ∈ g.tabIds))) = 1)
    ∧ (∀ g ∈ (clusterTabs [TabMeta.mk 1 "alpha" "" [], TabMeta.mk 2 "beta" "" []] []
        (ClusterOptions.mk none) 0 (fun _ => "r")).1, g.tabIds ≠ [])
    ∧ (∀ g ∈ (clusterTabs [TabMeta.mk 1 "alpha" "" [], TabMeta.mk 2 "beta" "" []] []
        (ClusterOptions.mk none) 0 (fun _ => "r")).1, ∀ i ∈ g.tabIds,
        jlookup (clusterTabs [TabMeta.mk 1 "alpha" "" [], TabMeta.mk 2 "beta" "" []] []
          (ClusterOptions.mk none) 0 (fun _ => "r")).2 i = some g.id)) :=
  ⟨by decide, clusterTabs_partition [TabMeta.mk 1 "alpha" "" [], TabMeta.mk 2 "beta" "" []]
    [] (ClusterOptions.mk none) 0 (fun _ => "r") (by decide)⟩

/-! ### Structural determinism: ids and timestamps do not influence membership -/

theorem stepScore_ecore (fv : TabFeatures) (g1 g2 : TabGroup) (h : ecore g1 = ecore g2) :
    stepScore fv g1 = stepScore fv g2 := by
  unfold ecore at h
  rw [Prod.mk.injEq, Prod.mk.injEq] at h
  obtain ⟨_, hc, hs⟩ := h
  unfold stepScore
  rw [hc, hs]

theorem bestScan_ecore (fv : TabFeatures) :
    ∀ (gs1 gs2 : List TabGroup), gs1.map ecore = gs2.map ecore →
      ∀ (n : ℕ) (st : Option ℕ × ℝ),
        List.foldl (bestStep fv) st (List.enumFrom n gs1) =
        List.foldl (bestStep fv) st (List.enumFrom n gs2) := by
  intro gs1
  induction gs1 with
  | nil =>
    intro gs2 h n st
    have : gs2 = [] := by
      cases gs2 with
      | nil => rfl
      | cons b r => simp at h
    subst this
    rfl
  | cons g1 r1 ih =>
    intro gs2 h n st
    cases gs2 with
    | nil => simp at h
    | cons g2 r2 =>
      simp only [List.map_cons, List.cons.injEq] at h
      obtain ⟨hg, hr⟩ := h
      rw [enumFrom_cons', enumFrom_cons', List.foldl_cons, List.foldl_cons]
      have hstep : bestStep fv st (n, g1) = bestStep fv st (n, g2) := by
        unfold bestStep
        rw [stepScore_ecore fv g1 g2 hg]
      rw [hstep]
      exact ih r2 hr (n + 1) _

theorem findBest_ecore (fv : TabFeatures) (init : ℝ) (gs1 gs2 : List TabGroup)
    (h : gs1.map ecore = gs2.map ecore) : findBest fv init gs1 = findBest fv init gs2 := by
  unfold findBest
  exact bestScan_ecore fv gs1 gs2 h 0 (none, init)

theorem map_updateAt {α β : Type} (f : α → β) :
    ∀ (l : List α) (j : ℕ) (g2 : α),
      (updateAt l j (fun _ => g2)).map f = updateAt (l.map f) j (fun _ => f g2) := by
  intro l
  induction l with
  | nil => intro j g2; rfl
  | cons a rest ih =>
    intro j g2
    match j with
    | 0 => rfl
    | j' + 1 =>
      simp only [updateAt, List.map_cons, ih]

theorem assignOne_ecore (θ : ℝ) (now1 now2 : ℕ) (rands1 rands2 : ℕ → String)
    (t : TabMeta) (fv : TabFeatures) (st1 st2 : ClusterState)
    (h : st1.groups.map ecore = st2.groups.map ecore) :
    (assignOne θ now1 rands1 st1 t fv).groups.map ecore =
    (assignOne θ now2 rands2 st2 t fv).groups.map ecore := by
  have hfb : findBest fv (θ - NEW_GROUP_PENALTY) st1.groups =
      findBest fv (θ - NEW_GROUP_PENALTY) st2.groups := findBest_ecore fv _ _ _ h
  unfold assignOne
  rw [← hfb]
  cases hres : (findBest fv (θ - NEW_GROUP_PENALTY) st1.groups).1 with
  | none =>
    simp only [List.map_append, List.map_cons, List.map_nil, h]
    rfl
  | some i =>
    have hget : (st1.groups.get? i).map ecore = (st2.groups.get? i).map ecore := by
      rw [← List.get?_map, ← List.get?_map, h]
    cases hg1 : st1.groups.get? i with
    | none =>
      have hg2 : st2.groups.get? i = none := by
        rw [hg1] at hget
        cases hg2 : st2.groups.get? i
        · rfl
        · rw [hg2] at hget
          simp at hget
      dsimp only
      rw [hg1, hg2]
      exact h
    | some g1 =>
      have hg2x : ∃ g2, st2.groups.get? i = some g2 ∧ ecore g1 = ecore g2 := by
        rw [hg1] at hget
        cases hg2 : st2.groups.get? i with
        | none =>
          rw [hg2] at hget
          simp at hget
        | some g2 =>
          rw [hg2] at hget
          simp at hget
          exact ⟨g2, rfl, hget⟩
      obtain ⟨g2, hg2, hcore⟩ := hg2x
      dsimp only
      rw [hg1, hg2]
      dsimp only
      rw [map_updateAt, map_updateAt, h]
      unfold ecore at hcore
      rw [Prod.mk.injEq, Prod.mk.injEq] at hcore
      obtain ⟨hta, hc, hs⟩ := hcore
      unfold ecore
      simp only [hta, hc, hs]

theorem assign_fold_ecore (θ : ℝ) (fvOf : TabMeta → TabFeatures) :
    ∀ (tabs : List TabMeta) (now1 now2 : ℕ) (rands1 rands2 : ℕ → String)
      (st1 st2 : ClusterState), st1.groups.map ecore = st2.groups.map ecore →
      (tabs.foldl (fun st t => assignOne θ now1 rands1 st t (fvOf t)) st1).groups.map ecore =
      (tabs.foldl (fun st t => assignOne θ now2 rands2 st t (fvOf t)) st2).groups.map ecore := by
  intro tabs
  induction tabs with
  | nil => intro now1 now2 rands1 rands2 st1 st2 h; exact h
  | cons t rest ih =>
    intro now1 now2 rands1 rands2 st1 st2 h
    rw [List.foldl_cons, List.foldl_cons]
    exact ih now1 now2 rands1 rands2 _ _ (assignOne_ecore θ now1 now2 rands1 rands2 t (fvOf t)
      st1 st2 h)

theorem filter_map_ecore :
    ∀ (l1 l2 : List TabGroup), l1.map ecore = l2.map ecore →
      (l1.filter (fun g => decide (0 < g.tabIds.length))).map ecore =
      (l2.filter (fun g => decide (0 < g.tabIds.length))).map ecore := by
  intro l1
  induction l1 with
  | nil =>
    intro l2 h
    cases l2 with
    | nil => rfl
    | cons b r => simp at h
  | cons g1 r1 ih =>
    intro l2 h
    cases l2 with
    | nil => simp at h
    | cons g2 r2 =>
      simp only [List.map_cons, List.cons.injEq] at h
      obtain ⟨hg, hr⟩ := h
      have hta : g1.tabIds = g2.tabIds := congrArg (fun x => x.1) hg
      by_cases hp : 0 < g1.tabIds.length
      · have hp2 : 0 < g2.tabIds.length := by rw [← hta]; exact hp
        simp [List.filter_cons, hp, hp2, hg, ih r2 hr]
      · have hp2 : ¬(0 < g2.tabIds.length) := by rw [← hta]; exact hp
        simp [List.filter_cons, hp, hp2, ih r2 hr]

theorem map_orderedInsert_ecore (a : TabGroup) :
    ∀ (l : List TabGroup),
      (List.orderedInsert bySizeDesc a l).map ecore =
      List.orderedInsert coreSizeDesc (ecore a) (l.map ecore) := by
  intro l
  induction l with
  | nil => rfl
  | cons b rest ih =>
    by_cases h : b.stats.size ≤ a.stats.size
    · rw [List.orderedInsert, if_pos (show bySizeDesc a b from h), List.map_cons, List.map_cons,
        List.orderedInsert, if_pos (show coreSizeDesc (ecore a) (ecore b) from h)]
    · rw [List.orderedInsert, if_neg (show ¬bySizeDesc a b from h), List.map_cons,
        List.map_cons, List.orderedInsert,
        if_neg (show ¬coreSizeDesc (ecore a) (ecore b) from h), ih]

theorem map_insertionSort_ecore :
    ∀ (l : List TabGroup),
      (l.insertionSort bySizeDesc).map ecore = (l.map ecore).insertionSort coreSizeDesc := by
  intro l
  induction l with
  | nil => rfl
  | cons a rest ih =>
    rw [List.insertionSort, List.map_cons, List.insertionSort, ← ih,
      map_orderedInsert_ecore]

/-- C7: two runs of clusterTabs on the same batch with no seeds, differing
only in the clock and the random id suffixes, produce the same list of
membership lists (ids may differ). -/
theorem clusterTabs_structure_deterministic (tabs : List TabMeta) (opts : ClusterOptions)
    (now1 now2 : ℕ) (rands1 rands2 : ℕ → String) :
    (clusterTabs tabs [] opts now1 rands1).1.map TabGroup.tabIds =
    (clusterTabs tabs [] opts now2 rands2).1.map TabGroup.tabIds := by
  rw [clusterTabs_eq, clusterTabs_eq]
  have hcore := assign_fold_ecore opts.threshold
    (fun t => ((jlookup (tabs.foldl (fun m t => jset m t.id (tabVector t)) []) t.id).getD
      (TabFeatures.mk [] "" [])))
    tabs now1 now2 rands1 rands2
    (ClusterState.mk (([] : List TabGroup).map (cloneSeed now1)) [] 0)
    (ClusterState.mk (([] : List TabGroup).map (cloneSeed now2)) [] 0) rfl
  have hfilt := filter_map_ecore _ _ hcore
  have hfin := Eq.trans (map_insertionSort_ecore _)
    (Eq.trans (congrArg (fun l => l.insertionSort coreSizeDesc) hfilt)
      (map_insertionSort_ecore _).symm)
  have hproj := congrArg (List.map (fun x : List ℕ × Vec × ℕ => x.1)) hfin
  rw [List.map_map, List.map_map] at hproj
  exact hproj

/-! ### Seeds restored with empty centroids are inert -/

theorem stepScore_empty_seed (fv : TabFeatures) (g : TabGroup) (hc : g.centroid = [])
    (hs : g.stats.size = 0) : stepScore fv g = 0 := by
  unfold stepScore
  rw [hc, hs]
  rw [if_neg (fun h => absurd h.2 (by omega))]
  exact cosine_empty_right fv.vec

theorem scan_seeds_id (fv : TabFeatures) :
    ∀ (seeds : List TabGroup) (n : ℕ) (init : ℝ), 0 ≤ init →
      (∀ s ∈ seeds, stepScore fv s = 0) →
      List.foldl (bestStep fv) (none, init) (List.enumFrom n seeds) = (none, init) := by
  intro seeds
  induction seeds with
  | nil => intro n init _ _; rfl
  | cons s rest ih =>
    intro n init h0 hss
    rw [enumFrom_cons', List.foldl_cons]
    have hs0 : stepScore fv s = 0 := hss s (List.mem_cons_self _ _)
    have hstep : bestStep fv (none, init) (n, s) = (none, init) := by
      unfold bestStep
      rw [if_neg (by rw [hs0]; simpa using not_lt.mpr h0)]
    rw [hstep]
    exact ih (n + 1) init h0 (fun s hs => hss s (List.mem_cons_of_mem _ hs))

theorem scan_shift (fv : TabFeatures) :
    ∀ (gs : List TabGroup) (k n : ℕ) (o : Option ℕ) (x : ℝ),
      List.foldl (bestStep fv) (o.map (· + k), x) (List.enumFrom (n + k) gs) =
        ((List.foldl (bestStep fv) (o, x) (List.enumFrom n gs)).1.map (· + k),
         (List.foldl (bestStep fv) (o, x) (List.enumFrom n gs)).2) := by
  intro gs
  induction gs with
  | nil => intro k n o x; rfl
  | cons g rest ih =>
    intro k n o x
    rw [enumFrom_cons', enumFrom_cons', List.foldl_cons, List.foldl_cons]
    by_cases hup : x < stepScore fv g
    · have h1 : bestStep fv (o.map (· + k), x) (n + k, g) =
          ((some n).map (· + k), stepScore fv g) := by
        unfold bestStep
        rw [if_pos (by simpa using hup)]
        rfl
      have h2 : bestStep fv (o, x) (n, g) = (some n, stepScore fv g) := by
        unfold bestStep
        rw [if_pos (by simpa using hup)]
      rw [h1, h2]
      have : n + k + 1 = (n + 1) + k := by omega
      rw [this]
      exact ih k (n + 1) (some n) (stepScore fv g)
    · have h1 : bestStep fv (o.map (· + k), x) (n + k, g) = (o.map (· + k), x) := by
        unfold bestStep
        rw [if_neg (by simpa using hup)]
      have h2 : bestStep fv (o, x) (n, g) = (o, x) := by
        unfold bestStep
        rw [if_neg (by simpa using hup)]
      rw [h1, h2]
      have : n + k + 1 = (n + 1) + k := by omega
      rw [this]
      exact ih k (n + 1) o x

theorem findBest_append_seeds (fv : TabFeatures) (seeds gs : List TabGroup) (init : ℝ)
    (h0 : 0 ≤ init) (hseeds : ∀ s ∈ seeds, stepScore fv s = 0) :
    findBest fv init (seeds ++ gs) =
      ((findBest fv init gs).1.map (· + seeds.length), (findBest fv init gs).2) := by
  unfold findBest
  have henum : (seeds ++ gs).enum = List.enumFrom 0 seeds ++ List.enumFrom seeds.length gs := by
    rw [List.enum_append]
    rfl
  rw [henum, List.foldl_append]
  rw [show gs.enum = List.enumFrom 0 gs from rfl]
  rw [scan_seeds_id fv seeds 0 init h0 hseeds]
  have : List.enumFrom seeds.length gs = List.enumFrom (0 + seeds.length) gs := by
    rw [Nat.zero_add]
  rw [this]
  have hnone : ((none : Option ℕ), init) = ((none : Option ℕ).map (· + seeds.length), init) := rfl
  rw [hnone]
  exact scan_shift fv gs seeds.length 0 none init

theorem updateAt_append_right {α : Type} :
    ∀ (l1 l2 : List α) (j : ℕ) (f : α → α),
      updateAt (l1 ++ l2) (j + l1.length) f = l1 ++ updateAt l2 j f := by
  intro l1
  induction l1 with
  | nil => intro l2 j f; simp
  | cons a rest ih =>
    intro l2 j f
    have : j + (a :: rest).length = (j + rest.length) + 1 := by simp; omega
    rw [this]
    simp only [List.cons_append, updateAt]
    exact congrArg (a :: ·) (ih l2 j f)

theorem get?_append_right' {α : Type} :
    ∀ (l1 l2 : List α) (j : ℕ), (l1 ++ l2).get? (j + l1.length) = l2.get? j := by
  intro l1
  induction l1 with
  | nil => intro l2 j; simp
  | cons a rest ih =>
    intro l2 j
    have : j + (a :: rest).length = (j + rest.length) + 1 := by simp; omega
    rw [this]
    simp only [List.cons_append, List.get?]
    exact ih l2 j

theorem assignOne_skip_seeds (θ : ℝ) (hθ : 0 ≤ θ - NEW_GROUP_PENALTY) (now : ℕ)
    (rands : ℕ → String) (seeds : List TabGroup)
    (hc : ∀ s ∈ seeds, s.centroid = [] ∧ s.stats.size = 0) (t : TabMeta) (fv : TabFeatures)
    (st : ClusterState) :
    assignOne θ now rands (ClusterState.mk (seeds ++ st.groups) st.assignments st.fresh) t fv =
      ClusterState.mk (seeds ++ (assignOne θ now rands st t fv).groups)
        (assignOne θ now rands st t fv).assignments (assignOne θ now rands st t fv).fresh := by
  have hs0 : ∀ s ∈ seeds, stepScore fv s = 0 :=
    fun s hs => stepScore_empty_seed fv s (hc s hs).1 (hc s hs).2
  have hfb := findBest_append_seeds fv seeds st.groups (θ - NEW_GROUP_PENALTY) hθ hs0
  unfold assignOne
  simp only []
  rw [hfb]
  cases hres : (findBest fv (θ - NEW_GROUP_PENALTY) st.groups).1 with
  | none =>
    simp only [Option.map_none']
    rw [List.append_assoc]
  | some i =>
    simp only [Option.map_some']
    rw [show i + seeds.length = i + seeds.length from rfl, get?_append_right' seeds st.groups i]
    cases hget : st.groups.get? i with
    | none => rfl
    | some g =>
      simp only []
      rw [updateAt_append_right seeds st.groups i]

theorem fold_skip_seeds (θ : ℝ) (hθ : 0 ≤ θ - NEW_GROUP_PENALTY) (now : ℕ)
    (rands : ℕ → String) (fvOf : TabMeta → TabFeatures) (seeds : List TabGroup)
    (hc : ∀ s ∈ seeds, s.centroid = [] ∧ s.stats.size = 0) :
    ∀ (tabs : List TabMeta) (st : ClusterState),
      tabs.foldl (fun st t => assignOne θ now rands st t (fvOf t))
        (ClusterState.mk (seeds ++ st.groups) st.assignments st.fresh) =
      ClusterState.mk
        (seeds ++ (tabs.foldl (fun st t => assignOne θ now rands st t (fvOf t)) st).groups)
        (tabs.foldl (fun st t => assignOne θ now rands st t (fvOf t)) st).assignments
        (tabs.foldl (fun st t => assignOne θ now rands st t (fvOf t)) st).fresh := by
  intro tabs
  induction tabs with
  | nil => intro st; rfl
  | cons t rest ih =>
    intro st
    rw [List.foldl_cons, List.foldl_cons]
    rw [assignOne_skip_seeds θ hθ now rands seeds hc t (fvOf t) st]
    exact ih (assignOne θ now rands st t (fvOf t))

/-- Seeds whose centroids are empty (as produced by loadState) attract no tab
when the effective threshold is non-negative: the run is identical to an
unseeded run on the same inputs. -/
theorem clusterTabs_empty_centroid_seeds (tabs : List TabMeta) (prev : List TabGroup)
    (opts : ClusterOptions) (now : ℕ) (rands : ℕ → String)
    (hθ : 0 ≤ opts.threshold - NEW_GROUP_PENALTY)
    (hprev : ∀ g ∈ prev, g.centroid = []) :
    clusterTabs tabs prev opts now rands = clusterTabs tabs [] opts now rands := by
  rw [clusterTabs_eq, clusterTabs_eq]
  have hc : ∀ s ∈ prev.map (cloneSeed now), s.centroid = [] ∧ s.stats.size = 0 := by
    intro s hs
    obtain ⟨g, hg, rfl⟩ := List.mem_map.mp hs
    exact ⟨hprev g hg, rfl⟩
  have hinit : ClusterState.mk (prev.map (cloneSeed now)) [] 0 =
      ClusterState.mk (prev.map (cloneSeed now) ++
        (ClusterState.mk (([] : List TabGroup).map (cloneSeed now)) [] 0).groups)
        (ClusterState.mk (([] : List TabGroup).map (cloneSeed now)) [] 0).assignments
        (ClusterState.mk (([] : List TabGroup).map (cloneSeed now)) [] 0).fresh := by
    simp
  rw [hinit, fold_skip_seeds opts.threshold hθ now rands _ (prev.map (cloneSeed now)) hc tabs]
  have hfseeds : (prev.map (cloneSeed now)).filter (fun g => decide (0 < g.tabIds.length)) = [] := by
    rw [List.filter_eq_nil_iff]
    intro s hs
    obtain ⟨g, _, rfl⟩ := List.mem_map.mp hs
    simp [cloneSeed]
  simp only [List.filter_append, hfseeds, List.nil_append]

theorem assignOne_label_invariant (θ : ℝ) (now : ℕ) (rands : ℕ → String) (t : TabMeta)
    (fv : TabFeatures) (st : ClusterState)
    (h : ∀ g ∈ st.groups, g.label = "" ∧ g.summary = "") :
    ∀ g ∈ (assignOne θ now rands st t fv).groups, g.label = "" ∧ g.summary = "" := by
  intro g hg
  unfold assignOne at hg
  cases hres : (findBest fv (θ - NEW_GROUP_PENALTY) st.groups).1 with
  | none =>
    rw [hres] at hg
    dsimp only at hg
    rcases List.mem_append.mp hg with h1 | h2
    · exact h g h1
    · rcases List.mem_singleton.mp h2 with rfl
      exact ⟨rfl, rfl⟩
  | some i =>
    rw [hres] at hg
    dsimp only at hg
    cases hget : st.groups.get? i with
    | none =>
      rw [hget] at hg
      exact h g hg
    | some g0 =>
      rw [hget] at hg
      dsimp only at hg
      rcases mem_updateAt_const st.groups i _ g hg with h1 | h1
      · exact h g h1
      · subst h1
        have hg0 : g0 ∈ st.groups := List.get?_mem hget
        exact h g0 hg0

theorem fold_label_invariant (θ : ℝ) (now : ℕ) (rands : ℕ → String)
    (fvOf : TabMeta → TabFeatures) :
    ∀ (tabs : List TabMeta) (st : ClusterState),
      (∀ g ∈ st.groups, g.label = "" ∧ g.summary = "") →
      ∀ g ∈ (tabs.foldl (fun st t => assignOne θ now rands st t (fvOf t)) st).groups,
        g.label = "" ∧ g.summary = "" := by
  intro tabs
  induction tabs with
  | nil => intro st h; exact h
  | cons t rest ih =>
    intro st h
    rw [List.foldl_cons]
    exact ih _ (assignOne_label_invariant θ now rands t (fvOf t) st h)

theorem clusterTabs_no_seed_labels (tabs : List TabMeta) (opts : ClusterOptions) (now : ℕ)
    (rands : ℕ → String) :
    ∀ g ∈ (clusterTabs tabs [] opts now rands).1, g.label = "" ∧ g.summary = "" := by
  rw [clusterTabs_eq]
  intro g hg
  have hg2 := (List.perm_insertionSort bySizeDesc _).subset hg
  have hg3 := List.mem_of_mem_filter hg2
  exact fold_label_invariant opts.threshold now rands _ tabs
    (ClusterState.mk (([] : List TabGroup).map (cloneSeed now)) [] 0) (by simp) g hg3

/-- C4 (amended): restoring persisted clusters via loadState resets every
centroid to empty, so the next recompute behaves exactly as an unseeded run
on the snapshot (with the system's non-negative effective threshold): all
restored clusters are dropped, every resulting cluster is fresh with empty
label and summary, and in particular persisted labels and summaries are not
preserved even when a resulting cluster has the same membership. -/
theorem loadState_recompute (tabs : List TabMeta) (stored : List StoredGroup)
    (opts : ClusterOptions) (now : ℕ) (rands : ℕ → String)
    (hθ : 0 ≤ opts.threshold - NEW_GROUP_PENALTY) :
    clusterTabs tabs (loadStateGroups stored) opts now rands =
      clusterTabs tabs [] opts now rands
    ∧ ∀ g ∈ (clusterTabs tabs (loadStateGroups stored) opts now rands).1,
        g.label = "" ∧ g.summary = "" := by
  have hcent : ∀ g ∈ loadStateGroups stored, g.centroid = [] := by
    intro g hg
    obtain ⟨s, _, rfl⟩ := List.mem_map.mp hg
    rfl
  have heq := clusterTabs_empty_centroid_seeds tabs (loadStateGroups stored) opts now rands
    hθ hcent
  refine ⟨heq, ?_⟩
  rw [heq]
  exact clusterTabs_no_seed_labels tabs opts now rands

/-- Witness for C4 (amended) at the service worker's threshold of 0.6. -/
theorem loadState_recompute_witness :
    (0 : ℝ) ≤ (ClusterOptions.mk (some 0.6)).threshold - NEW_GROUP_PENALTY ∧
    (clusterTabs [] (loadStateGroups []) (ClusterOptions.mk (some 0.6)) 0 (fun _ => "r") =
      clusterTabs [] [] (ClusterOptions.mk (some 0.6)) 0 (fun _ => "r")
    ∧ ∀ g ∈ (clusterTabs [] (loadStateGroups []) (ClusterOptions.mk (some 0.6)) 0
        (fun _ => "r")).1, g.label = "" ∧ g.summary = "") :=
  ⟨by norm_num [ClusterOptions.threshold, NEW_GROUP_PENALTY],
   loadState_recompute [] [] (ClusterOptions.mk (some 0.6)) 0 (fun _ => "r")
     (by norm_num [ClusterOptions.threshold, NEW_GROUP_PENALTY])⟩

/-! ### Concrete evaluation helpers -/

theorem findBest_nil (fv : TabFeatures) (init : ℝ) : findBest fv init [] = (none, init) := rfl

theorem findBest_none_of_all_le (fv : TabFeatures) (init : ℝ) (gs : List TabGroup)
    (h : ∀ g ∈ gs, stepScore fv g ≤ init) : findBest fv init gs = (none, init) := by
  rcases findBest_cases fv init gs with ⟨heq, _⟩ | ⟨i, hi, _, hlt, _, _⟩
  · exact heq
  · exact absurd (h _ (getD_mem gs i hi)) (not_le.mpr hlt)

theorem findBest_single_gt (fv : TabFeatures) (init : ℝ) (g : TabGroup)
    (h : init < stepScore fv g) : findBest fv init [g] = (some 0, stepScore fv g) := by
  unfold findBest
  rw [show ([g].enum) = [(0, g)] from rfl, List.foldl_cons, List.foldl_nil]
  unfold bestStep
  rw [if_pos h]

theorem assignOne_new (θ : ℝ) (now : ℕ) (rands : ℕ → String) (st : ClusterState)
    (t : TabMeta) (fv : TabFeatures)
    (h : findBest fv (θ - NEW_GROUP_PENALTY) st.groups = (none, θ - NEW_GROUP_PENALTY)) :
    assignOne θ now rands st t fv =
      ClusterState.mk
        (st.groups ++ [TabGroup.mk (groupIdFrom fv.allTokens (rands st.fresh)) "" "" [t.id]
          fv.vec (GroupStats.mk 1 now)])
        (jset st.assignments t.id (groupIdFrom fv.allTokens (rands st.fresh)))
        (st.fresh + 1) := by
  unfold assignOne
  rw [h]

theorem assignOne_join_at (θ : ℝ) (now : ℕ) (rands : ℕ → String) (st : ClusterState)
    (t : TabMeta) (fv : TabFeatures) (i : ℕ) (s : ℝ) (g : TabGroup)
    (h : findBest fv (θ - NEW_GROUP_PENALTY) st.groups = (some i, s))
    (hget : st.groups.get? i = some g) :
    assignOne θ now rands st t fv =
      ClusterState.mk
        (updateAt st.groups i (fun _ => TabGroup.mk g.id g.label g.summary (g.tabIds ++ [t.id])
          (mergeCentroid g.centroid fv.vec g.stats.size) (GroupStats.mk (g.stats.size + 1) now)))
        (jset st.assignments t.id g.id)
        st.fresh := by
  unfold assignOne
  rw [h]
  dsimp only
  rw [hget]

theorem stepScore_no_host (fv : TabFeatures) (h : fv.host = "") (g : TabGroup) :
    stepScore fv g = cosine fv.vec g.centroid := by
  unfold stepScore
  rw [if_neg (fun hh => hh.1 h)]

theorem tabVector_alpha (i : ℕ) : tabVector (TabMeta.mk i "alpha" "" []) =
    TabFeatures.mk [("alpha", (1 : ℝ))] "" ["alpha"] := by
  unfold tabVector
  rw [show tokenize "alpha" = ["alpha"] from by decide]
  rw [show parseUrl "" = ("", []) from by decide]
  simp [vectorize, show freqs ["alpha"] = [("alpha", 1)] from by decide]

theorem cosine_alpha_self : cosine [("alpha", (1 : ℝ))] [("alpha", (1 : ℝ))] = 1 :=
  cosine_self [("alpha", (1 : ℝ))] (by decide) (by simp [sumSq])

theorem clusterTabs_two_alpha_eval (now : ℕ) :
    (clusterTabs [TabMeta.mk 1 "alpha" "" [], TabMeta.mk 2 "alpha" "" []] []
      (ClusterOptions.mk (some 0.6)) now (fun _ => "r")).1.map
        (fun g => (g.label, g.tabIds)) = [("", [1, 2])] := by
  rw [clusterTabs_eq]
  have hvecs : ([TabMeta.mk 1 "alpha" "" [], TabMeta.mk 2 "alpha" "" []].foldl
      (fun m t => jset m t.id (tabVector t)) [] : List (ℕ × TabFeatures)) =
      [(1, TabFeatures.mk [("alpha", (1 : ℝ))] "" ["alpha"]),
       (2, TabFeatures.mk [("alpha", (1 : ℝ))] "" ["alpha"])] := by
    simp [List.foldl, jset, tabVector_alpha]
  rw [hvecs]
  rw [List.foldl_cons, List.foldl_cons, List.foldl_nil]
  simp only [jlookup, Option.getD_some, List.map_nil, reduceIte]
  have hthr : (ClusterOptions.mk (some (0.6 : ℝ))).threshold = 0.6 := rfl
  rw [hthr]
  rw [assignOne_new 0.6 now (fun _ => "r") (ClusterState.mk [] [] 0)
    (TabMeta.mk 1 "alpha" "" []) (TabFeatures.mk [("alpha", (1 : ℝ))] "" ["alpha"])
    (findBest_nil _ _)]
  dsimp only
  simp only [List.nil_append, jset, Option.getD_some, reduceIte, Nat.reduceAdd, ite_self]
  have hsc : ((0.6 : ℝ) - NEW_GROUP_PENALTY) <
      stepScore (TabFeatures.mk [("alpha", (1 : ℝ))] "" ["alpha"])
        (TabGroup.mk (groupIdFrom ["alpha"] "r") "" "" [1] [("alpha", (1 : ℝ))]
          (GroupStats.mk 1 now)) := by
    rw [stepScore_no_host _ rfl]
    dsimp only
    rw [cosine_alpha_self]
    norm_num [NEW_GROUP_PENALTY]
  rw [assignOne_join_at 0.6 now (fun _ => "r")
    (ClusterState.mk [TabGroup.mk (groupIdFrom ["alpha"] "r") "" "" [1] [("alpha", (1 : ℝ))]
      (GroupStats.mk 1 now)] [(1, groupIdFrom ["alpha"] "r")] 1)
    (TabMeta.mk 2 "alpha" "" []) (TabFeatures.mk [("alpha", (1 : ℝ))] "" ["alpha"]) 0 _
    (TabGroup.mk (groupIdFrom ["alpha"] "r") "" "" [1] [("alpha", (1 : ℝ))]
      (GroupStats.mk 1 now))
    (findBest_single_gt _ _ _ hsc) rfl]
  dsimp only [updateAt]
  simp [List.insertionSort, List.orderedInsert]

/-- C4 counterexample: persist one labeled cluster containing tabs 1 and 2,
restore it through loadState, and recompute on the identical snapshot. The
recompute reproduces the same membership `[1, 2]`, yet no output cluster
carries the persisted label: the label is reset to the empty string. -/
theorem loadState_recompute_label_loss :
    (clusterTabs [TabMeta.mk 1 "alpha" "" [], TabMeta.mk 2 "alpha" "" []]
      (loadStateGroups [StoredGroup.mk "g1" "Travel" "my trip" [1, 2] (GroupStats.mk 2 0)])
      (ClusterOptions.mk (some 0.6)) 5 (fun _ => "r")).1.map
        (fun g => (g.label, g.tabIds)) = [("", [1, 2])] ∧
    ("Travel" : String) ≠ "" := by
  constructor
  · rw [clusterTabs_empty_centroid_seeds _ _ _ _ _
      (by norm_num [ClusterOptions.threshold, NEW_GROUP_PENALTY])
      (by
        intro g hg
        obtain ⟨s, _, rfl⟩ := List.mem_map.mp hg
        rfl)]
    exact clusterTabs_two_alpha_eval 5
  · decide

theorem tabVector_bookflight (i : ℕ) : tabVector (TabMeta.mk i "Book flight to Paris" "" []) =
    TabFeatures.mk [("book", (1 : ℝ)), ("flight", 1), ("paris", 1)] ""
      ["book", "flight", "paris"] := by
  unfold tabVector
  rw [show tokenize "Book flight to Paris" = ["book", "flight", "paris"] from by decide]
  rw [show parseUrl "" = ("", []) from by decide]
  simp [vectorize,
    show freqs ["book", "flight", "paris"] = [("book", 1), ("flight", 1), ("paris", 1)] from
      by decide]

theorem tabVector_hotels (i : ℕ) : tabVector (TabMeta.mk i "Hotels in Paris" "" []) =
    TabFeatures.mk [("hotels", (1 : ℝ)), ("paris", 1)] "" ["hotels", "paris"] := by
  unfold tabVector
  rw [show tokenize "Hotels in Paris" = ["hotels", "paris"] from by decide]
  rw [show parseUrl "" = ("", []) from by decide]
  simp [vectorize,
    show freqs ["hotels", "paris"] = [("hotels", 1), ("paris", 1)] from by decide]

theorem tabVector_usestate (i : ℕ) : tabVector (TabMeta.mk i "React useState docs" "" []) =
    TabFeatures.mk [("react", (1 : ℝ)), ("usestate", 1), ("docs", 1)] ""
      ["react", "usestate", "docs"] := by
  unfold tabVector
  rw [show tokenize "React useState docs" = ["react", "usestate", "docs"] from by decide]
  rw [show parseUrl "" = ("", []) from by decide]
  simp [vectorize,
    show freqs ["react", "usestate", "docs"] = [("react", 1), ("usestate", 1), ("docs", 1)] from
      by decide]

theorem tabVector_useeffect (i : ℕ) : tabVector (TabMeta.mk i "React useEffect guide" "" []) =
    TabFeatures.mk [("react", (1 : ℝ)), ("useeffect", 1), ("guide", 1)] ""
      ["react", "useeffect", "guide"] := by
  unfold tabVector
  rw [show tokenize "React useEffect guide" = ["react", "useeffect", "guide"] from by decide]
  rw [show parseUrl "" = ("", []) from by decide]
  simp [vectorize,
    show freqs ["react", "useeffect", "guide"] =
      [("react", 1), ("useeffect", 1), ("guide", 1)] from by decide]

theorem cos_hotels_book_le : cosine [("hotels", (1 : ℝ)), ("paris", 1)]
    [("book", (1 : ℝ)), ("flight", 1), ("paris", 1)] ≤ 0.58 := by
  have hval : cosine [("hotels", (1 : ℝ)), ("paris", 1)]
      [("book", (1 : ℝ)), ("flight", 1), ("paris", 1)] =
      1 / (Real.sqrt 2 * Real.sqrt 3) := by
    rw [cosine_cases]
    rw [if_neg (by norm_num)]
    rw [show sumSq [("hotels", (1 : ℝ)), ("paris", 1)] = 2 from by simp [sumSq]; norm_num]
    rw [show sumSq [("book", (1 : ℝ)), ("flight", 1), ("paris", 1)] = 3 from
      by simp [sumSq]; norm_num]
    rw [show dotList [("hotels", (1 : ℝ)), ("paris", 1)]
      [("book", (1 : ℝ)), ("flight", 1), ("paris", 1)] = 1 from
      by simp [dotList, Vec.getv, jlookup]]
    rw [show dotList [("book", (1 : ℝ)), ("flight", 1), ("paris", 1)]
      [("hotels", (1 : ℝ)), ("paris", 1)] = 1 from
      by simp [dotList, Vec.getv, jlookup]]
    rw [ite_self, if_neg (by positivity)]
  rw [hval]
  have h6 : Real.sqrt 2 * Real.sqrt 3 = Real.sqrt 6 := by
    rw [← Real.sqrt_mul (by norm_num : (0 : ℝ) ≤ 2) 3]
    norm_num
  have h24 : (2.4 : ℝ) ≤ Real.sqrt 6 := Real.le_sqrt_of_sq_le (by norm_num)
  rw [h6]
  have hpos : (0 : ℝ) < Real.sqrt 6 := by positivity
  rw [div_le_iff hpos]
  nlinarith

theorem cos_react_book : cosine [("react", (1 : ℝ)), ("usestate", 1), ("docs", 1)]
    [("book", (1 : ℝ)), ("flight", 1), ("paris", 1)] = 0 := by
  rw [cosine_cases, if_neg (by norm_num)]
  rw [show dotList [("react", (1 : ℝ)), ("usestate", 1), ("docs", 1)]
    [("book", (1 : ℝ)), ("flight", 1), ("paris", 1)] = 0 from
    by simp [dotList, Vec.getv, jlookup]]
  rw [show dotList [("book", (1 : ℝ)), ("flight", 1), ("paris", 1)]
    [("react", (1 : ℝ)), ("usestate", 1), ("docs", 1)] = 0 from
    by simp [dotList, Vec.getv, jlookup]]
  rw [ite_self, zero_div, ite_self]

theorem cos_react_hotels : cosine [("react", (1 : ℝ)), ("usestate", 1), ("docs", 1)]
    [("hotels", (1 : ℝ)), ("paris", 1)] = 0 := by
  rw [cosine_cases, if_neg (by norm_num)]
  rw [show dotList [("react", (1 : ℝ)), ("usestate", 1), ("docs", 1)]
    [("hotels", (1 : ℝ)), ("paris", 1)] = 0 from
    by simp [dotList, Vec.getv, jlookup]]
  rw [show dotList [("hotels", (1 : ℝ)), ("paris", 1)]
    [("react", (1 : ℝ)), ("usestate", 1), ("docs", 1)] = 0 from
    by simp [dotList, Vec.getv, jlookup]]
  rw [ite_self, zero_div, ite_self]

theorem cos_guide_book : cosine [("react", (1 : ℝ)), ("useeffect", 1), ("guide", 1)]
    [("book", (1 : ℝ)), ("flight", 1), ("paris", 1)] = 0 := by
  rw [cosine_cases, if_neg (by norm_num)]
  rw [show dotList [("react", (1 : ℝ)), ("useeffect", 1), ("guide", 1)]
    [("book", (1 : ℝ)), ("flight", 1), ("paris", 1)] = 0 from
    by simp [dotList, Vec.getv, jlookup]]
  rw [show dotList [("book", (1 : ℝ)), ("flight", 1), ("paris", 1)]
    [("react", (1 : ℝ)), ("useeffect", 1), ("guide", 1)] = 0 from
    by simp [dotList, Vec.getv, jlookup]]
  rw [ite_self, zero_div, ite_self]

theorem cos_guide_hotels : cosine [("react", (1 : ℝ)), ("useeffect", 1), ("guide", 1)]
    [("hotels", (1 : ℝ)), ("paris", 1)] = 0 := by
  rw [cosine_cases, if_neg (by norm_num)]
  rw [show dotList [("react", (1 : ℝ)), ("useeffect", 1), ("guide", 1)]
    [("hotels", (1 : ℝ)), ("paris", 1)] = 0 from
    by simp [dotList, Vec.getv, jlookup]]
  rw [show dotList [("hotels", (1 : ℝ)), ("paris", 1)]
    [("react", (1 : ℝ)), ("useeffect", 1), ("guide", 1)] = 0 from
    by simp [dotList, Vec.getv, jlookup]]
  rw [ite_self, zero_div, ite_self]

theorem cos_guide_react_le : cosine [("react", (1 : ℝ)), ("useeffect", 1), ("guide", 1)]
    [("react", (1 : ℝ)), ("usestate", 1), ("docs", 1)] ≤ 0.58 := by
  have hval : cosine [("react", (1 : ℝ)), ("useeffect", 1), ("guide", 1)]
      [("react", (1 : ℝ)), ("usestate", 1), ("docs", 1)] =
      1 / (Real.sqrt 3 * Real.sqrt 3) := by
    rw [cosine_cases]
    rw [if_neg (by norm_num)]
    rw [show sumSq [("react", (1 : ℝ)), ("useeffect", 1), ("guide", 1)] = 3 from
      by simp [sumSq]; norm_num]
    rw [show sumSq [("react", (1 : ℝ)), ("usestate", 1), ("docs", 1)] = 3 from
      by simp [sumSq]; norm_num]
    rw [show dotList [("react", (1 : ℝ)), ("useeffect", 1), ("guide", 1)]
      [("react", (1 : ℝ)), ("usestate", 1), ("docs", 1)] = 1 from
      by simp [dotList, Vec.getv, jlookup]]
    rw [show dotList [("react", (1 : ℝ)), ("usestate", 1), ("docs", 1)]
      [("react", (1 : ℝ)), ("useeffect", 1), ("guide", 1)] = 1 from
      by simp [dotList, Vec.getv, jlookup]]
    rw [ite_self, if_neg (by positivity)]
  rw [hval, Real.mul_self_sqrt (by norm_num : (0 : ℝ) ≤ 3)]
  norm_num

theorem assignOne_new' (θ : ℝ) (now : ℕ) (rands : ℕ → String) (gs : List TabGroup)
    (asg : List (ℕ × String)) (fr : ℕ) (t : TabMeta) (fv : TabFeatures)
    (h : findBest fv (θ - NEW_GROUP_PENALTY) gs = (none, θ - NEW_GROUP_PENALTY)) :
    assignOne θ now rands (ClusterState.mk gs asg fr) t fv =
      ClusterState.mk
        (gs ++ [TabGroup.mk (groupIdFrom fv.allTokens (rands fr)) "" "" [t.id] fv.vec
          (GroupStats.mk 1 now)])
        (jset asg t.id (groupIdFrom fv.allTokens (rands fr))) (fr + 1) := by
  unfold assignOne
  dsimp only
  rw [h]

theorem clusterTabs_demo_eval (now : ℕ) (rands : ℕ → String) :
    (clusterTabs
      [TabMeta.mk 1 "Book flight to Paris" "" [], TabMeta.mk 2 "Hotels in Paris" "" [],
       TabMeta.mk 3 "React useState docs" "" [], TabMeta.mk 4 "React useEffect guide" "" []]
      [] (ClusterOptions.mk (some 0.6)) now rands).1.map TabGroup.tabIds =
      [[1], [2], [3], [4]] := by
  have h58 : ((0.6 : ℝ) - NEW_GROUP_PENALTY) = 0.58 := by norm_num [NEW_GROUP_PENALTY]
  rw [clusterTabs_eq]
  have hvecs : ([TabMeta.mk 1 "Book flight to Paris" "" [], TabMeta.mk 2 "Hotels in Paris" "" [],
      TabMeta.mk 3 "React useState docs" "" [],
      TabMeta.mk 4 "React useEffect guide" "" []].foldl
      (fun m t => jset m t.id (tabVector t)) [] : List (ℕ × TabFeatures)) =
      [(1, TabFeatures.mk [("book", (1 : ℝ)), ("flight", 1), ("paris", 1)] ""
        ["book", "flight", "paris"]),
       (2, TabFeatures.mk [("hotels", (1 : ℝ)), ("paris", 1)] "" ["hotels", "paris"]),
       (3, TabFeatures.mk [("react", (1 : ℝ)), ("usestate", 1), ("docs", 1)] ""
        ["react", "usestate", "docs"]),
       (4, TabFeatures.mk [("react", (1 : ℝ)), ("useeffect", 1), ("guide", 1)] ""
        ["react", "useeffect", "guide"])] := by
    simp [List.foldl, jset, tabVector_bookflight, tabVector_hotels, tabVector_usestate,
      tabVector_useeffect]
  rw [hvecs]
  rw [List.foldl_cons, List.foldl_cons, List.foldl_cons, List.foldl_cons, List.foldl_nil]
  simp only [jlookup, Option.getD_some, List.map_nil, Nat.reduceEqDiff, reduceIte]
  have hthr : (ClusterOptions.mk (some (0.6 : ℝ))).threshold = 0.6 := rfl
  rw [hthr]
  rw [assignOne_new' 0.6 now rands [] [] 0 (TabMeta.mk 1 "Book flight to Paris" "" [])
    (TabFeatures.mk [("book", (1 : ℝ)), ("flight", 1), ("paris", 1)] ""
      ["book", "flight", "paris"]) (findBest_nil _ _)]
  dsimp only
  simp only [List.nil_append, List.cons_append]
  have hall2 : ∀ g ∈ [TabGroup.mk (groupIdFrom ["book", "flight", "paris"] (rands 0)) "" "" [1]
      [("book", (1 : ℝ)), ("flight", 1), ("paris", 1)] (GroupStats.mk 1 now)],
      stepScore (TabFeatures.mk [("hotels", (1 : ℝ)), ("paris", 1)] "" ["hotels", "paris"]) g ≤
        (0.6 : ℝ) - NEW_GROUP_PENALTY := by
    intro g hg
    simp only [List.mem_singleton] at hg
    subst hg
    rw [stepScore_no_host _ rfl, h58]
    dsimp only
    exact cos_hotels_book_le
  rw [assignOne_new' 0.6 now rands
    [TabGroup.mk (groupIdFrom ["book", "flight", "paris"] (rands 0)) "" "" [1]
      [("book", (1 : ℝ)), ("flight", 1), ("paris", 1)] (GroupStats.mk 1 now)] _ _
    (TabMeta.mk 2 "Hotels in Paris" "" [])
    (TabFeatures.mk [("hotels", (1 : ℝ)), ("paris", 1)] "" ["hotels", "paris"])
    (findBest_none_of_all_le _ _ _ hall2)]
  dsimp only
  simp only [List.nil_append, List.cons_append]
  have hall3 : ∀ g ∈ [TabGroup.mk (groupIdFrom ["book", "flight", "paris"] (rands 0)) "" "" [1]
      [("book", (1 : ℝ)), ("flight", 1), ("paris", 1)] (GroupStats.mk 1 now),
      TabGroup.mk (groupIdFrom ["hotels", "paris"] (rands (0 + 1))) "" "" [2]
      [("hotels", (1 : ℝ)), ("paris", 1)] (GroupStats.mk 1 now)],
      stepScore (TabFeatures.mk [("react", (1 : ℝ)), ("usestate", 1), ("docs", 1)] ""
        ["react", "usestate", "docs"]) g ≤ (0.6 : ℝ) - NEW_GROUP_PENALTY := by
    intro g hg
    simp only [List.mem_cons, List.not_mem_nil, or_false] at hg
    rcases hg with rfl | rfl
    · rw [stepScore_no_host _ rfl, h58]
      dsimp only
      rw [cos_react_book]
      norm_num
    · rw [stepScore_no_host _ rfl, h58]
      dsimp only
      rw [cos_react_hotels]
      norm_num
  rw [assignOne_new' 0.6 now rands
    [TabGroup.mk (groupIdFrom ["book", "flight", "paris"] (rands 0)) "" "" [1]
      [("book", (1 : ℝ)), ("flight", 1), ("paris", 1)] (GroupStats.mk 1 now),
     TabGroup.mk (groupIdFrom ["hotels", "paris"] (rands (0 + 1))) "" "" [2]
      [("hotels", (1 : ℝ)), ("paris", 1)] (GroupStats.mk 1 now)] _ _
    (TabMeta.mk 3 "React useState docs" "" [])
    (TabFeatures.mk [("react", (1 : ℝ)), ("usestate", 1), ("docs", 1)] ""
      ["react", "usestate", "docs"])
    (findBest_none_of_all_le _ _ _ hall3)]
  dsimp only
  simp only [List.nil_append, List.cons_append]
  have hall4 : ∀ g ∈ [TabGroup.mk (groupIdFrom ["book", "flight", "paris"] (rands 0)) "" "" [1]
      [("book", (1 : ℝ)), ("flight", 1), ("paris", 1)] (GroupStats.mk 1 now),
      TabGroup.mk (groupIdFrom ["hotels", "paris"] (rands (0 + 1))) "" "" [2]
      [("hotels", (1 : ℝ)), ("paris", 1)] (GroupStats.mk 1 now),
      TabGroup.mk (groupIdFrom ["react", "usestate", "docs"] (rands (0 + 1 + 1))) "" "" [3]
      [("react", (1 : ℝ)), ("usestate", 1), ("docs", 1)] (GroupStats.mk 1 now)],
      stepScore (TabFeatures.mk [("react", (1 : ℝ)), ("useeffect", 1), ("guide", 1)] ""
        ["react", "useeffect", "guide"]) g ≤ (0.6 : ℝ) - NEW_GROUP_PENALTY := by
    intro g hg
    simp only [List.mem_cons, List.not_mem_nil, or_false] at hg
    rcases hg with rfl | rfl | rfl
    · rw [stepScore_no_host _ rfl, h58]
      dsimp only
      rw [cos_guide_book]
      norm_num
    · rw [stepScore_no_host _ rfl, h58]
      dsimp only
      rw [cos_guide_hotels]
      norm_num
    · rw [stepScore_no_host _ rfl, h58]
      dsimp only
      exact cos_guide_react_le
  rw [assignOne_new' 0.6 now rands
    [TabGroup.mk (groupIdFrom ["book", "flight", "paris"] (rands 0)) "" "" [1]
      [("book", (1 : ℝ)), ("flight", 1), ("paris", 1)] (GroupStats.mk 1 now),
     TabGroup.mk (groupIdFrom ["hotels", "paris"] (rands (0 + 1))) "" "" [2]
      [("hotels", (1 : ℝ)), ("paris", 1)] (GroupStats.mk 1 now),
     TabGroup.mk (groupIdFrom ["react", "usestate", "docs"] (rands (0 + 1 + 1))) "" "" [3]
      [("react", (1 : ℝ)), ("usestate", 1), ("docs", 1)] (GroupStats.mk 1 now)] _ _
    (TabMeta.mk 4 "React useEffect guide" "" [])
    (TabFeatures.mk [("react", (1 : ℝ)), ("useeffect", 1), ("guide", 1)] ""
      ["react", "useeffect", "guide"])
    (findBest_none_of_all_le _ _ _ hall4)]
  dsimp only
  simp [List.insertionSort, List.orderedInsert, bySizeDesc]

/-- C3: corrected end-to-end scenario. On the four titles of the claim with no
URLs, no seeds and threshold 0.6, clusterTabs produces four singleton clusters
`[[1], [2], [3], [4]]` — not two: the travel pair's cosine is 1/√6 ≈ 0.41 and
the React pair's is 1/3, both below threshold − newClusterPenalty = 0.58, so no
tab ever joins an existing cluster. -/
theorem clusterTabs_demo_scenario (now : ℕ) (rands : ℕ → String) :
    (clusterTabs
      [TabMeta.mk 1 "Book flight to Paris" "" [], TabMeta.mk 2 "Hotels in Paris" "" [],
       TabMeta.mk 3 "React useState docs" "" [], TabMeta.mk 4 "React useEffect guide" "" []]
      [] (ClusterOptions.mk (some 0.6)) now rands).1.map TabGroup.tabIds =
      [[1], [2], [3], [4]] :=
  clusterTabs_demo_eval now rands

/-- C3 counterexample: on the claim's exact scenario the engine emits 4
clusters, refuting the claimed "exactly 2 clusters". -/
theorem clusterTabs_demo_not_two_clusters :
    (clusterTabs
      [TabMeta.mk 1 "Book flight to Paris" "" [], TabMeta.mk 2 "Hotels in Paris" "" [],
       TabMeta.mk 3 "React useState docs" "" [], TabMeta.mk 4 "React useEffect guide" "" []]
      [] (ClusterOptions.mk (some 0.6)) 0 (fun _ => "r")).1.length = 4 ∧ (4 : ℕ) ≠ 2 := by
  constructor
  · have h := clusterTabs_demo_eval 0 (fun _ => "r")
    have hl := congrArg List.length h
    rw [List.length_map] at hl
    simpa using hl
  · decide
